import Mathlib

/-!
Recipient resolution, consent filtering and personalization of
`website/src/libs/api-v3/email.js`.

A shallow embedding of `getUserInfo` and `txnEmail`.

JavaScript values are modelled as immutable trees (`JSVal`): `undefined`, `null`,
booleans, numbers (integers; `NaN` and fractions do not occur in the fields read
here, and of a number only its truthiness and, as a property key, its decimal
print are observed), strings, arrays and plain
objects (association lists in insertion order).  A thrown `TypeError` is the
`Except.error` result.  Of the prototype chain, the members a plain object inherits
from `Object.prototype` are modelled where a computed key is read (line 116).
Accessor properties and object identity (aliasing) are outside the model.
-/

namespace Email

/-- A JavaScript value. -/
inductive JSVal where
  | undefined : JSVal
  | null : JSVal
  | bool (b : Bool) : JSVal
  | num (n : Int) : JSVal
  | str (s : String) : JSVal
  | arr (xs : List JSVal) : JSVal
  | obj (props : List (String × JSVal)) : JSVal

/-- The exception a property read of `undefined` or `null`, or a call of a
non-function, raises. -/
inductive JSError where
  | typeError : JSError

namespace JSVal

/-- ToBoolean: `undefined`, `null`, `false`, `0` and `""` are falsy, everything
else (arrays and objects included) is truthy. -/
def truthy : JSVal → Bool
  | undefined => false
  | null => false
  | bool b => b
  | num n => n != 0
  | str s => s != ""
  | arr _ => true
  | obj _ => true

/-- The test `v === undefined || v === null`. -/
def nullish : JSVal → Bool
  | undefined => true
  | null => true
  | _ => false

/-- The test `v === s` for a string literal `s`. -/
def strictEqStr : JSVal → String → Bool
  | str t, s => t == s
  | _, _ => false

/-- The test `v !== true`. -/
def notStrictTrue : JSVal → Bool
  | bool true => false
  | _ => true

/-- The test `v === n` for a number literal `n`. -/
def strictEqNum : JSVal → Int → Bool
  | num m, n => m == n
  | _, _ => false

/-- Own-property lookup in an association list; the first binding of a key is the
live one. -/
def lookup (k : String) : List (String × JSVal) → Option JSVal
  | [] => none
  | (k', v) :: rest => if k' = k then some v else lookup k rest

/-- Number of UTF-16 code units of a string (the `length` of a JS string). -/
def utf16Len (s : String) : Nat :=
  (s.toList.map (fun c => if c.toNat < 65536 then 1 else 2)).sum

/-- Property read `v.k` for a named key `k` other than an array index: throws on
`undefined` and `null`, reads the own property of an object (`undefined` when
there is none), `length` of arrays and strings, and `undefined` otherwise. -/
def get (v : JSVal) (k : String) : Except JSError JSVal :=
  match v with
  | undefined => .error .typeError
  | null => .error .typeError
  | obj props => .ok ((lookup k props).getD undefined)
  | arr xs => .ok (if k = "length" then num xs.length else undefined)
  | str s => .ok (if k = "length" then num (utf16Len s) else undefined)
  | _ => .ok undefined

/-- Indexed read `v[0]`. -/
def getFirst (v : JSVal) : Except JSError JSVal :=
  match v with
  | undefined => .error .typeError
  | null => .error .typeError
  | arr xs => .ok (xs.head?.getD undefined)
  | str s => .ok (match s.toList with
      | [] => undefined
      | c :: _ => str (String.singleton c))
  | obj props => .ok ((lookup "0" props).getD undefined)
  | _ => .ok undefined

/-- Assignment `o.k = v` on an object: replaces the binding of `k` in place or
appends a new one. -/
def setProp (k : String) (v : JSVal) : List (String × JSVal) → List (String × JSVal)
  | [] => [(k, v)]
  | (k', w) :: rest => if k' = k then (k', v) :: rest else (k', w) :: setProp k v rest

/-- The test `k in o` for an object built by this module (own keys only). -/
def hasKey (v : JSVal) (k : String) : Bool :=
  match v with
  | obj props => (lookup k props).isSome
  | _ => false

end JSVal

open JSVal

/-- The call `fields.indexOf(s)` counted from position `i`: the position of the first
element strictly equal to the string `s`, or `-1`. -/
def indexOfFrom (s : String) : List JSVal → Nat → Int
  | [], _ => -1
  | x :: xs, i => if x.strictEqStr s then (i : Int) else indexOfFrom s xs (i + 1)

/-- The call `fields.indexOf(s)`. -/
def indexOf (fields : List JSVal) (s : String) : Int :=
  indexOfFrom s fields 0

/-- The expression `a || b`, where `b` is evaluated only when `a` is falsy. -/
def orElse (a : JSVal) (b : Except JSError JSVal) : Except JSError JSVal :=
  if a.truthy then .ok a else b

/-- Lines 36-42 of `getUserInfo`: the `name` block, run on the object `info`. -/
def nameStep (user : JSVal) (info : List (String × JSVal)) :
    Except JSError (List (String × JSVal)) := do
  let auth ← user.get "auth"
  let loc ← auth.get "local"
  if loc.truthy then
    let profile ← user.get "profile"
    let pname ← profile.get "name"
    let n ← orElse pname (loc.get "username")
    pure (setProp "name" n info)
  else
    let fb ← auth.get "facebook"
    if fb.truthy then
      let profile ← user.get "profile"
      let pname ← profile.get "name"
      let n ← orElse pname (do
        let dn ← fb.get "displayName"
        orElse dn (fb.get "username"))
      pure (setProp "name" n info)
    else
      pure info

/-- The condition of line 45: `user.auth.local && user.auth.local.email`. -/
def localEmail (user : JSVal) : Except JSError JSVal := do
  let auth ← user.get "auth"
  let loc ← auth.get "local"
  if loc.truthy then loc.get "email" else pure loc

/-- The condition of line 47: `user.auth.facebook && user.auth.facebook.emails &&
user.auth.facebook.emails[0] && user.auth.facebook.emails[0].value`. -/
def facebookEmail (user : JSVal) : Except JSError JSVal := do
  let auth ← user.get "auth"
  let fb ← auth.get "facebook"
  if fb.truthy then
    let emails ← fb.get "emails"
    if emails.truthy then
      let first ← emails.getFirst
      if first.truthy then first.get "value" else pure first
    else pure emails
  else pure fb

/-- Lines 44-50 of `getUserInfo`: the `email` block. -/
def emailStep (user : JSVal) (info : List (String × JSVal)) :
    Except JSError (List (String × JSVal)) := do
  let le ← localEmail user
  if le.truthy then
    pure (setProp "email" le info)
  else
    let fe ← facebookEmail user
    if fe.truthy then pure (setProp "email" fe info) else pure info

/-- Lines 52-54 of `getUserInfo`: the `_id` block. -/
def idStep (user : JSVal) (info : List (String × JSVal)) :
    Except JSError (List (String × JSVal)) := do
  let id ← user.get "_id"
  pure (setProp "_id" id info)

/-- Lines 56-58 of `getUserInfo`: the `canSend` block. -/
def canSendStep (user : JSVal) (info : List (String × JSVal)) :
    Except JSError (List (String × JSVal)) := do
  let prefs ← user.get "preferences"
  let en ← prefs.get "emailNotifications"
  let unsub ← en.get "unsubscribeFromAll"
  pure (setProp "canSend" (bool unsub.notStrictTrue) info)

/-- One `if (fields.indexOf(k) !== -1) { ... }` statement. -/
def whenRequested (fields : List JSVal) (k : String)
    (step : List (String × JSVal) → Except JSError (List (String × JSVal)))
    (info : List (String × JSVal)) : Except JSError (List (String × JSVal)) :=
  if indexOf fields k != -1 then step info else .ok info

/-- The function `getUserInfo (user, fields)`, lines 33-61. -/
def getUserInfo (user : JSVal) (fields : List JSVal) : Except JSError JSVal := do
  let info0 : List (String × JSVal) := []
  let info1 ← whenRequested fields "name" (nameStep user) info0
  let info2 ← whenRequested fields "email" (emailStep user) info1
  let info3 ← whenRequested fields "_id" (idStep user) info2
  let info4 ← whenRequested fields "canSend" (canSendStep user) info3
  pure (obj info4)

/-! ## `txnEmail` -/

/-- Process configuration read at module load (lines 7 and 15) and the two string
capabilities the unsubscribe code is built with: `encrypt` of `./encryption`,
which is not part of this file, and the built-in `JSON.stringify`. -/
structure Env where
  /-- The value of `nconf.get('IS_PROD')` -/
  IS_PROD : JSVal
  /-- The value of `nconf.get('BASE_URL')` -/
  BASE_URL : JSVal
  /-- The function `encrypt` imported from `./encryption` -/
  encrypt : String → String
  /-- The built-in `JSON.stringify` -/
  jsonStringify : JSVal → String

/-- Line 65: `Array.isArray(x) ? x : [x]`. -/
def normalize : JSVal → List JSVal
  | arr xs => xs
  | v => [v]

/-- The call `xs.concat(v)`: an array argument is spread, any other value is appended. -/
def concat (xs : List JSVal) : JSVal → List JSVal
  | arr ys => xs ++ ys
  | v => xs ++ [v]

/-- Lines 67-69: `[{name: 'BASE_URL', content: BASE_URL}].concat(variables || [])`. -/
def globalVariables (env : Env) (vars : JSVal) : List JSVal :=
  concat [obj [("name", str "BASE_URL"), ("content", env.BASE_URL)]]
    (if vars.truthy then vars else arr [])

/-- The field list of line 73. -/
def userFields : List JSVal := [str "_id", str "email", str "name", str "canSend"]

/-- The `map` callback of lines 72-74. -/
def mapInfo (mailingInfo : JSVal) : Except JSError JSVal := do
  let id ← mailingInfo.get "_id"
  if id.truthy then getUserInfo mailingInfo userFields else pure mailingInfo

/-- The `filter` callback of lines 74-78, with the truthiness of its result taken:
`mailingInfo.email && (!mailingInfo._id || mailingInfo.canSend ||
emailType === 'reset-password')`. -/
def keep (emailType : JSVal) (mailingInfo : JSVal) : Except JSError Bool := do
  let email ← mailingInfo.get "email"
  if email.truthy then
    let id ← mailingInfo.get "_id"
    if !id.truthy then pure true
    else
      let canSend ← mailingInfo.get "canSend"
      if canSend.truthy then pure true
      else pure (emailType.strictEqStr "reset-password")
  else pure false

/-- The call `xs.map(f)` for a callback that may throw. -/
def mapE {α β : Type} (f : α → Except JSError β) : List α → Except JSError (List β)
  | [] => .ok []
  | x :: xs => do
    let y ← f x
    let ys ← mapE f xs
    pure (y :: ys)

/-- The call `xs.filter(p)` for a callback that may throw. -/
def filterE {α : Type} (p : α → Except JSError Bool) : List α → Except JSError (List α)
  | [] => .ok []
  | x :: xs => do
    let b ← p x
    let ys ← filterE p xs
    pure (if b then x :: ys else ys)

/-- Lines 65 and 72-78: the resolved recipient list. -/
def resolveRecipients (mailingInfoArray emailType : JSVal) : Except JSError (List JSVal) := do
  let mapped ← mapE mapInfo (normalize mailingInfoArray)
  filterE (keep emailType) mapped

/-! ### Personalization (lines 83-127) -/

/-- The template literal of lines 94-97 and 120-123:
`/unsubscribe?code=` followed by `encrypt(JSON.stringify({_id: id, email: email}))`. -/
def unsubUrl (env : Env) (id email : JSVal) : JSVal :=
  str ("/unsubscribe?code=" ++
    env.encrypt (env.jsonStringify (obj [("_id", id), ("email", email)])))

/-- The two items every entry receives: `RECIPIENT_NAME`, then
`RECIPIENT_UNSUB_URL`. -/
def recipientVars (env : Env) (name id email : JSVal) : List JSVal :=
  [obj [("name", str "RECIPIENT_NAME"), ("content", name)],
   obj [("name", str "RECIPIENT_UNSUB_URL"), ("content", unsubUrl env id email)]]

/-- The `map` callback of lines 84-101. -/
def synthEntry (env : Env) (mailingInfo : JSVal) : Except JSError JSVal := do
  let email ← mailingInfo.get "email"
  let name ← mailingInfo.get "name"
  let id ← mailingInfo.get "_id"
  pure (obj [("rcpt", email), ("vars", arr (recipientVars env name id email))])

mutual
/-- ToString of a value used as a computed property key (`o[v]`).  An object
with an own `toString` has, in this model, a non-callable one, and its inherited
`valueOf` returns the object itself: the conversion throws. -/
def toKey : JSVal → Except JSError String
  | undefined => .ok "undefined"
  | null => .ok "null"
  | .bool b => .ok (if b then "true" else "false")
  | num n => .ok (toString n)
  | str s => .ok s
  | arr xs => joinKeys xs
  | obj props => if (lookup "toString" props).isSome then .error .typeError
      else .ok "[object Object]"
/-- The built-in `Array.prototype.join` with the separator `,`. -/
def joinKeys : List JSVal → Except JSError String
  | [] => .ok ""
  | [x] => elemKey x
  | x :: y :: rest => do
    let a ← elemKey x
    let b ← joinKeys (y :: rest)
    pure (a ++ "," ++ b)
/-- An element inside `join`: `undefined` and `null` print as the empty string. -/
def elemKey : JSVal → Except JSError String
  | undefined => .ok ""
  | null => .ok ""
  | v => toKey v
end

/-- A built-in function object, as far as its `name` can be read. -/
def builtinFn (name : String) : JSVal := obj [("name", str name)]

/-- The members a plain object inherits from `Object.prototype` (all functions;
the accessor `__proto__` is handled in `LookupObj.read`). -/
def objectPrototype : List (String × JSVal) :=
  [("constructor", builtinFn "Object"),
   ("hasOwnProperty", builtinFn "hasOwnProperty"),
   ("isPrototypeOf", builtinFn "isPrototypeOf"),
   ("propertyIsEnumerable", builtinFn "propertyIsEnumerable"),
   ("toLocaleString", builtinFn "toLocaleString"),
   ("toString", builtinFn "toString"),
   ("valueOf", builtinFn "valueOf"),
   ("__defineGetter__", builtinFn "__defineGetter__"),
   ("__defineSetter__", builtinFn "__defineSetter__"),
   ("__lookupGetter__", builtinFn "__lookupGetter__"),
   ("__lookupSetter__", builtinFn "__lookupSetter__")]

/-- The object `temporaryPersonalVariables` of line 103: its own properties and
the object an assignment to `__proto__` has installed as its prototype (`none`:
still `Object.prototype`). -/
structure LookupObj where
  proto : Option (List (String × JSVal))
  own : List (String × JSVal)

/-- Assignment `temp[key] = {...}` of an object value (line 106). -/
def LookupObj.write (t : LookupObj) (key : String) (props : List (String × JSVal)) :
    LookupObj :=
  if key = "__proto__" then { t with proto := some props }
  else { t with own := setProp key (obj props) t.own }

/-- Read `temp[key]` (lines 116 and 121): own property, then the prototype
chain. -/
def LookupObj.read (t : LookupObj) (key : String) : JSVal :=
  match lookup key t.own with
  | some v => v
  | none =>
    if key = "__proto__" then obj (t.proto.getD objectPrototype)
    else
      match t.proto with
      | some props =>
        (lookup key props).getD ((lookup key objectPrototype).getD undefined)
      | none => (lookup key objectPrototype).getD undefined

/-- The `forEach` of lines 105-110, from the state `t`. -/
def buildLookup (t : LookupObj) : List JSVal → Except JSError LookupObj
  | [] => .ok t
  | mailingInfo :: rest => do
    let email ← mailingInfo.get "email"
    let key ← toKey email
    let name ← mailingInfo.get "name"
    let id ← mailingInfo.get "_id"
    buildLookup (t.write key [("name", name), ("_id", id)]) rest

/-- The `forEach` callback of lines 112-126: the entry after
`singlePersonalVariables.vars.push(...)`. -/
def appendVars (env : Env) (t : LookupObj) (entry : JSVal) : Except JSError JSVal := do
  let vars ← entry.get "vars"
  let _push ← vars.get "push"
  let rcpt ← entry.get "rcpt"
  let key ← toKey rcpt
  let name ← (t.read key).get "name"
  let id ← (t.read key).get "_id"
  match vars, entry with
  | arr xs, obj props =>
    pure (obj (setProp "vars" (arr (xs ++ recipientVars env name id rcpt)) props))
  | _, _ => .error .typeError

/-- Lines 83-127: the value of `personalVariables` after the `if`. -/
def mergePersonalVariables (env : Env) (recipients : List JSVal)
    (personalVariables : JSVal) : Except JSError JSVal := do
  let noneSupplied ←
    if !personalVariables.truthy then pure true
    else do
      let len ← personalVariables.get "length"
      pure (len.strictEqNum 0)
  if noneSupplied then
    let entries ← mapE (synthEntry env) recipients
    pure (arr entries)
  else
    let t ← buildLookup { proto := none, own := [] } recipients
    match personalVariables with
    | arr entries =>
      let merged ← mapE (appendVars env t) entries
      pure (arr merged)
    | _ => .error .typeError

/-! ### Dispatch (lines 129-152) -/

/-- The `json` body of the request of lines 137-150. -/
def jobBody (emailType : JSVal) (recipients globalVars : List JSVal)
    (personalVariables : JSVal) : JSVal :=
  obj [("type", str "email"),
       ("data", obj [("emailType", emailType),
                     ("to", arr recipients),
                     ("variables", arr globalVars),
                     ("personalVariables", personalVariables)]),
       ("options", obj [("priority", str "high"),
                        ("attempts", num 5),
                        ("backoff", obj [("delay", num (10 * 60 * 1000)),
                                         ("type", str "fixed")])])]

/-- The function `txnEmail (mailingInfoArray, emailType, variables, personalVariables)`, lines
64-153.  The result is the list of bodies `request` was called with (the call is
fire-and-forget; a thrown `TypeError` aborts the function before the call). -/
def txnEmail (env : Env) (mailingInfoArray emailType vars personalVariables : JSVal) :
    Except JSError (List JSVal) := do
  let globalVars := globalVariables env vars
  let recipients ← resolveRecipients mailingInfoArray emailType
  let merged ← mergePersonalVariables env recipients personalVariables
  if env.IS_PROD.truthy && decide (recipients.length > 0) then
    pure [jobBody emailType recipients globalVars merged]
  else
    pure []

/-! ## Example records -/

/-- The user record of the specification's first example: local identity `bob`,
empty profile, no unsubscribe preference. -/
def bobRecord : JSVal :=
  obj [("_id", str "u1"),
       ("auth", obj [("local", obj [("username", str "bob"), ("email", str "bob@x.com")])]),
       ("profile", obj []),
       ("preferences", obj [("emailNotifications", obj [])])]

/-- The same user with `preferences.emailNotifications.unsubscribeFromAll = true`. -/
def bobUnsubscribed : JSVal :=
  obj [("_id", str "u1"),
       ("auth", obj [("local", obj [("username", str "bob"), ("email", str "bob@x.com")])]),
       ("profile", obj []),
       ("preferences",
         obj [("emailNotifications", obj [("unsubscribeFromAll", .bool true)])])]

/-- What `getUserInfo` returns for `bobRecord` and `bobUnsubscribed` on the field
list of `txnEmail`, up to the consent flag. -/
def bobInfo (canSend : Bool) : JSVal :=
  obj [("name", str "bob"), ("email", str "bob@x.com"), ("_id", str "u1"),
       ("canSend", .bool canSend)]

/-- A contact that is not a user record (no `_id`) and carries `canSend: false`. -/
def plainContact : JSVal :=
  obj [("email", str "a@x.com"), ("canSend", .bool false)]

/-- A production environment with stand-ins for the two string capabilities. -/
def sampleEnv : Env :=
  { IS_PROD := .bool true
    BASE_URL := str "https://habitica.com"
    encrypt := fun s => s
    jsonStringify := fun _ => "" }

/-- A local user with both a username and a profile name. -/
def bobNamed : JSVal :=
  obj [("_id", str "u1"),
       ("auth", obj [("local", obj [("username", str "bob"), ("email", str "bob@x.com")])]),
       ("profile", obj [("name", str "Bobby")]),
       ("preferences", obj [("emailNotifications", obj [])])]

/-- A record with a local identity that has no username, next to a facebook
identity that has a display name; no profile name. -/
def localWithoutUsername : JSVal :=
  obj [("auth", obj [("local", obj [("email", str "l@x.com")]),
                     ("facebook", obj [("displayName", str "FB Bob"),
                                       ("username", str "fbbob")])]),
       ("profile", obj [])]

/-- A record with a facebook identity only; no profile name. -/
def facebookUser : JSVal :=
  obj [("auth", obj [("facebook", obj [("displayName", str "FB Bob"),
                                       ("username", str "fbbob"),
                                       ("emails", arr [obj [("value", str "fb@x.com")]])])]),
       ("profile", obj [])]

/-- A facebook identity whose `emails` list is non-empty but whose first entry
holds an empty `value`. -/
def facebookEmptyEmail : JSVal :=
  obj [("auth", obj [("facebook", obj [("emails", arr [obj [("value", str "")]])])])]

/-- A user record whose `preferences` block has no `emailNotifications`. -/
def noNotifications : JSVal :=
  obj [("_id", str "u2"),
       ("auth", obj [("local", obj [("username", str "amy"), ("email", str "amy@x.com")])]),
       ("profile", obj []),
       ("preferences", obj [])]

/-- A user record with a local identity and no `profile` block. -/
def noProfile : JSVal :=
  obj [("_id", str "u3"),
       ("auth", obj [("local", obj [("username", str "amy"), ("email", str "amy@x.com")])]),
       ("preferences", obj [("emailNotifications", obj [])])]

/-- A record whose `auth` block holds no identity, with a profile name. -/
def noIdentity : JSVal :=
  obj [("_id", str "u4"),
       ("auth", obj []),
       ("profile", obj [("name", str "Ghost")]),
       ("preferences", obj [("emailNotifications", obj [])])]

/-- A supplied personalization entry for `bob@x.com` with one variable of the
caller. -/
def bobEntry : JSVal :=
  obj [("rcpt", str "bob@x.com"),
       ("vars", arr [obj [("name", str "GREETING"), ("content", str "hi")]])]

/-- A supplied entry for `bob@x.com` whose `vars` already hold a `RECIPIENT_NAME`
item. -/
def namedEntry : JSVal :=
  obj [("rcpt", str "bob@x.com"),
       ("vars", arr [obj [("name", str "RECIPIENT_NAME"), ("content", str "Robert")]])]

/-- A supplied entry whose `rcpt` is no email but the name of a property every
object inherits. -/
def constructorEntry : JSVal :=
  obj [("rcpt", str "constructor"), ("vars", arr [])]

/-- A user record with no `preferences` block, so that its unsubscribe preference
is absent. -/
def noPreferences : JSVal :=
  obj [("_id", str "u5"),
       ("auth", obj [("local", obj [("username", str "amy"), ("email", str "amy@x.com")])]),
       ("profile", obj [])]

/-- A user record with no `auth` block, so that neither identity is present, and
with a profile name. -/
def noAuth : JSVal :=
  obj [("_id", str "u6"),
       ("profile", obj [("name", str "Ghost")]),
       ("preferences", obj [("emailNotifications", obj [])])]


/-! ## Properties -/

/-! ### Objects and property reads -/

theorem lookup_setProp_self (k : String) (v : JSVal) (l : List (String × JSVal)) :
    lookup k (setProp k v l) = some v := by
  induction l with
  | nil => simp [setProp, lookup]
  | cons p rest ih =>
    obtain ⟨k', w⟩ := p
    by_cases h : k' = k
    · simp [setProp, lookup, h]
    · simp [setProp, lookup, h, ih]

theorem lookup_setProp_ne (k k2 : String) (v : JSVal) (l : List (String × JSVal))
    (hne : k ≠ k2) : lookup k2 (setProp k v l) = lookup k2 l := by
  induction l with
  | nil => simp [setProp, lookup, hne]
  | cons p rest ih =>
    obtain ⟨k', w⟩ := p
    by_cases h : k' = k
    · subst h; simp [setProp, lookup, hne]
    · by_cases h2 : k' = k2
      · subst h2; simp [setProp, lookup, h]
      · simp [setProp, lookup, h, h2, ih]

theorem get_obj (props : List (String × JSVal)) (k : String) :
    (obj props).get k = .ok ((lookup k props).getD undefined) := rfl

/-- A property read succeeds exactly on values other than `undefined` and `null`. -/
theorem get_ok_of_not_nullish (v : JSVal) (k : String) (h : v.nullish = false) :
    ∃ w, v.get k = .ok w := by
  cases v <;> simp_all [JSVal.get, nullish]

theorem not_nullish_of_get_ok (v w : JSVal) (k : String) (h : v.get k = .ok w) :
    v.nullish = false := by
  cases v <;> simp_all [JSVal.get, nullish]

theorem not_nullish_of_truthy (v : JSVal) (h : v.truthy = true) : v.nullish = false := by
  cases v <;> simp_all [truthy, nullish]

theorem strictEqStr_iff (v : JSVal) (s : String) : v.strictEqStr s = true ↔ v = str s := by
  cases v <;> simp [strictEqStr]

theorem notStrictTrue_eq_false_iff (v : JSVal) : v.notStrictTrue = false ↔ v = .bool true := by
  cases v with
  | bool b => cases b <;> simp [notStrictTrue]
  | _ => simp [notStrictTrue]

/-! ### Sequencing of computations that may throw -/

theorem bind_eq_ok {α β : Type} (x : Except JSError α) (f : α → Except JSError β) (b : β) :
    (x >>= f) = .ok b ↔ ∃ a, x = .ok a ∧ f a = .ok b := by
  cases x with
  | error e => simp [bind, Except.bind]
  | ok a => simp [bind, Except.bind]

theorem pure_eq_ok {α : Type} (a b : α) :
    (pure a : Except JSError α) = .ok b ↔ a = b := by
  simp [pure, Except.pure]

/-! ### `map` and `filter` with throwing callbacks -/

theorem mapE_ok_cons {α β : Type} (f : α → Except JSError β) (x : α) (xs : List α)
    (zs : List β) :
    mapE f (x :: xs) = .ok zs ↔ ∃ y ys, f x = .ok y ∧ mapE f xs = .ok ys ∧ zs = y :: ys := by
  cases hx : f x with
  | error e => simp [mapE, bind, Except.bind, hx]
  | ok y =>
    cases hxs : mapE f xs with
    | error e => simp [mapE, bind, Except.bind, hx, hxs]
    | ok ys => simp [mapE, bind, Except.bind, hx, hxs, pure, Except.pure, eq_comm]

theorem mapE_ok_forall₂ {α β : Type} (f : α → Except JSError β) (xs : List α) (ys : List β) :
    mapE f xs = .ok ys ↔ List.Forall₂ (fun x y => f x = .ok y) xs ys := by
  induction xs generalizing ys with
  | nil =>
    cases ys <;> simp [mapE, eq_comm]
  | cons x xs ih =>
    rw [mapE_ok_cons]
    constructor
    · rintro ⟨y, ys', hx, hxs, rfl⟩
      exact List.Forall₂.cons hx ((ih ys').1 hxs)
    · intro h
      cases h with
      | cons hx hrest => exact ⟨_, _, hx, (ih _).2 hrest, rfl⟩

theorem mapE_mem_right {α β : Type} (f : α → Except JSError β) (xs : List α) (ys : List β)
    (h : mapE f xs = .ok ys) (y : β) (hy : y ∈ ys) : ∃ x ∈ xs, f x = .ok y := by
  induction xs generalizing ys with
  | nil =>
    simp [mapE] at h
    subst h
    simp at hy
  | cons x xs ih =>
    obtain ⟨y', ys', hx, hxs, rfl⟩ := (mapE_ok_cons f x xs ys).1 h
    rcases List.mem_cons.1 hy with rfl | hmem
    · exact ⟨x, List.mem_cons_self _ _, hx⟩
    · obtain ⟨x', hx', hfx'⟩ := ih ys' hxs hmem
      exact ⟨x', List.mem_cons_of_mem _ hx', hfx'⟩

theorem mapE_mem_left {α β : Type} (f : α → Except JSError β) (xs : List α) (ys : List β)
    (h : mapE f xs = .ok ys) (x : α) (hx : x ∈ xs) : ∃ y ∈ ys, f x = .ok y := by
  induction xs generalizing ys with
  | nil => simp at hx
  | cons x' xs ih =>
    obtain ⟨y', ys', hx', hxs, rfl⟩ := (mapE_ok_cons f x' xs ys).1 h
    rcases List.mem_cons.1 hx with rfl | hmem
    · exact ⟨y', List.mem_cons_self _ _, hx'⟩
    · obtain ⟨y, hy, hfy⟩ := ih ys' hxs hmem
      exact ⟨y, List.mem_cons_of_mem _ hy, hfy⟩

/-- A filter whose callback throws on no element returns the sublist of the
elements the callback accepts. -/
theorem filterE_total {α : Type} (p : α → Except JSError Bool) (xs : List α)
    (hp : ∀ x ∈ xs, ∃ b, p x = .ok b) :
    ∃ ys, filterE p xs = .ok ys ∧ ys.Sublist xs ∧ ∀ m, m ∈ ys ↔ m ∈ xs ∧ p m = .ok true := by
  induction xs with
  | nil => exact ⟨[], rfl, List.Sublist.slnil, by simp⟩
  | cons x xs ih =>
    obtain ⟨ys, hys, hsub, hmem⟩ := ih (fun y hy => hp y (List.mem_cons_of_mem _ hy))
    obtain ⟨b, hb⟩ := hp x (List.mem_cons_self _ _)
    cases b with
    | true =>
      refine ⟨x :: ys, by simp [filterE, bind, Except.bind, hb, hys, pure, Except.pure],
        hsub.cons₂ x, ?_⟩
      intro m
      constructor
      · intro hm
        rcases List.mem_cons.1 hm with rfl | hm'
        · exact ⟨List.mem_cons_self _ _, hb⟩
        · exact ⟨List.mem_cons_of_mem _ ((hmem m).1 hm').1, ((hmem m).1 hm').2⟩
      · rintro ⟨hm, hpm⟩
        rcases List.mem_cons.1 hm with rfl | hm'
        · exact List.mem_cons_self _ _
        · exact List.mem_cons_of_mem _ ((hmem m).2 ⟨hm', hpm⟩)
    | false =>
      refine ⟨ys, by simp [filterE, bind, Except.bind, hb, hys, pure, Except.pure],
        hsub.cons x, ?_⟩
      intro m
      constructor
      · intro hm
        exact ⟨List.mem_cons_of_mem _ ((hmem m).1 hm).1, ((hmem m).1 hm).2⟩
      · rintro ⟨hm, hpm⟩
        rcases List.mem_cons.1 hm with rfl | hm'
        · rw [hb] at hpm
          cases hpm
        · exact (hmem m).2 ⟨hm', hpm⟩

/-! ### Structure of `getUserInfo` -/

theorem indexOfFrom_nonneg_or (s : String) (fields : List JSVal) (i : Nat) :
    indexOfFrom s fields i = -1 ∨ (i : Int) ≤ indexOfFrom s fields i := by
  induction fields generalizing i with
  | nil => left; rfl
  | cons x xs ih =>
    by_cases h : x.strictEqStr s = true
    · right; simp [indexOfFrom, h]
    · rcases ih (i + 1) with h1 | h1
      · left; simp [indexOfFrom, h, h1]
      · right
        simp only [indexOfFrom, h]
        simp only [Bool.false_eq_true, if_false]
        have : (i : Int) ≤ ((i + 1 : Nat) : Int) := by omega
        exact le_trans this h1

/-- The test `fields.indexOf(s) !== -1` holds exactly when `s` occurs in `fields`. -/
theorem indexOf_ne_iff (fields : List JSVal) (s : String) :
    indexOf fields s ≠ -1 ↔ str s ∈ fields := by
  unfold indexOf
  suffices h : ∀ i : Nat, indexOfFrom s fields i ≠ -1 ↔ str s ∈ fields from h 0
  induction fields with
  | nil => intro i; simp [indexOfFrom]
  | cons x xs ih =>
    intro i
    by_cases h : x.strictEqStr s = true
    · have hx : x = str s := (strictEqStr_iff x s).1 h
      subst hx
      simp only [indexOfFrom, h, if_true, List.mem_cons, true_or, iff_true]
      omega
    · have hx : ¬ str s = x := fun e => h ((strictEqStr_iff x s).2 e.symm)
      simp only [indexOfFrom, h]
      simp only [Bool.false_eq_true, if_false, List.mem_cons, hx, false_or]
      exact ih (i + 1)

theorem whenRequested_of_requested (fields : List JSVal) (k : String)
    (step : List (String × JSVal) → Except JSError (List (String × JSVal)))
    (info : List (String × JSVal)) (h : indexOf fields k ≠ -1) :
    whenRequested fields k step info = step info := by
  simp [whenRequested, h]

theorem whenRequested_of_not_requested (fields : List JSVal) (k : String)
    (step : List (String × JSVal) → Except JSError (List (String × JSVal)))
    (info : List (String × JSVal)) (h : indexOf fields k = -1) :
    whenRequested fields k step info = .ok info := by
  simp [whenRequested, h]

/-- The four statements of `getUserInfo` run in sequence, each on the object the
previous one left. -/
theorem getUserInfo_ok_iff (user : JSVal) (fields : List JSVal) (info : JSVal) :
    getUserInfo user fields = .ok info ↔
      ∃ i1 i2 i3 i4,
        whenRequested fields "name" (nameStep user) [] = .ok i1 ∧
        whenRequested fields "email" (emailStep user) i1 = .ok i2 ∧
        whenRequested fields "_id" (idStep user) i2 = .ok i3 ∧
        whenRequested fields "canSend" (canSendStep user) i3 = .ok i4 ∧
        info = obj i4 := by
  unfold getUserInfo
  cases h1 : whenRequested fields "name" (nameStep user) [] with
  | error e => simp [bind, Except.bind, h1]
  | ok i1 =>
    cases h2 : whenRequested fields "email" (emailStep user) i1 with
    | error e => simp [bind, Except.bind, h1, h2]
    | ok i2 =>
      cases h3 : whenRequested fields "_id" (idStep user) i2 with
      | error e => simp [bind, Except.bind, h1, h2, h3]
      | ok i3 =>
        cases h4 : whenRequested fields "canSend" (canSendStep user) i3 with
        | error e => simp [bind, Except.bind, h1, h2, h3, h4]
        | ok i4 =>
          simp [bind, Except.bind, h1, h2, h3, h4, pure, Except.pure, eq_comm]

/-- The `name` block either leaves the object alone or assigns `name`. -/
theorem nameStep_frame (user : JSVal) (info info' : List (String × JSVal))
    (h : nameStep user info = .ok info') :
    info' = info ∨ ∃ v, info' = setProp "name" v info := by
  unfold nameStep at h
  simp only [bind_eq_ok] at h
  obtain ⟨auth, -, loc, -, h⟩ := h
  split at h
  · simp only [bind_eq_ok, pure_eq_ok] at h
    obtain ⟨_, -, _, -, n, -, h⟩ := h
    exact Or.inr ⟨n, h.symm⟩
  · simp only [bind_eq_ok] at h
    obtain ⟨fb, -, h⟩ := h
    split at h
    · simp only [bind_eq_ok, pure_eq_ok] at h
      obtain ⟨_, -, _, -, n, -, h⟩ := h
      exact Or.inr ⟨n, h.symm⟩
    · exact Or.inl ((pure_eq_ok _ _).1 h).symm

/-- The `email` block either leaves the object alone or assigns a truthy
`email`. -/
theorem emailStep_frame (user : JSVal) (info info' : List (String × JSVal))
    (h : emailStep user info = .ok info') :
    info' = info ∨ ∃ v, v.truthy = true ∧ info' = setProp "email" v info := by
  unfold emailStep at h
  simp only [bind_eq_ok] at h
  obtain ⟨le, -, h⟩ := h
  split at h
  · rename_i hlt
    exact Or.inr ⟨le, hlt, ((pure_eq_ok _ _).1 h).symm⟩
  · simp only [bind_eq_ok] at h
    obtain ⟨fe, -, h⟩ := h
    split at h
    · rename_i hft
      exact Or.inr ⟨fe, hft, ((pure_eq_ok _ _).1 h).symm⟩
    · exact Or.inl ((pure_eq_ok _ _).1 h).symm

theorem idStep_ok_iff (user : JSVal) (info info' : List (String × JSVal)) :
    idStep user info = .ok info' ↔
      ∃ id, user.get "_id" = .ok id ∧ info' = setProp "_id" id info := by
  unfold idStep
  simp only [bind_eq_ok, pure_eq_ok, @eq_comm _ _ info']

theorem canSendStep_ok_iff (user : JSVal) (info info' : List (String × JSVal)) :
    canSendStep user info = .ok info' ↔
      ∃ prefs, user.get "preferences" = .ok prefs ∧
        ∃ en, prefs.get "emailNotifications" = .ok en ∧
          ∃ unsub, en.get "unsubscribeFromAll" = .ok unsub ∧
            info' = setProp "canSend" (.bool unsub.notStrictTrue) info := by
  unfold canSendStep
  simp only [bind_eq_ok, pure_eq_ok, @eq_comm _ _ info']

/-- A statement guarded by `fields.indexOf(k) !== -1` whose body can only assign
the key `k` leaves every other key as it was. -/
theorem whenRequested_lookup_ne (fields : List JSVal) (k k2 : String)
    (step : List (String × JSVal) → Except JSError (List (String × JSVal)))
    (info info' : List (String × JSVal))
    (hframe : ∀ i i', step i = .ok i' → i' = i ∨ ∃ v, i' = setProp k v i)
    (h : whenRequested fields k step info = .ok info') (hne : k ≠ k2) :
    lookup k2 info' = lookup k2 info := by
  unfold whenRequested at h
  split at h
  · rcases hframe _ _ h with rfl | ⟨v, rfl⟩
    · rfl
    · exact lookup_setProp_ne k k2 v info hne
  · cases h; rfl

theorem nameStep_frame' (user : JSVal) (i i' : List (String × JSVal))
    (h : nameStep user i = .ok i') : i' = i ∨ ∃ v, i' = setProp "name" v i :=
  nameStep_frame user i i' h

theorem emailStep_frame' (user : JSVal) (i i' : List (String × JSVal))
    (h : emailStep user i = .ok i') : i' = i ∨ ∃ v, i' = setProp "email" v i := by
  rcases emailStep_frame user i i' h with h1 | ⟨v, _, h2⟩
  · exact Or.inl h1
  · exact Or.inr ⟨v, h2⟩

theorem idStep_frame (user : JSVal) (i i' : List (String × JSVal))
    (h : idStep user i = .ok i') : i' = i ∨ ∃ v, i' = setProp "_id" v i := by
  obtain ⟨id, _, h2⟩ := (idStep_ok_iff user i i').1 h
  exact Or.inr ⟨id, h2⟩

theorem canSendStep_frame (user : JSVal) (i i' : List (String × JSVal))
    (h : canSendStep user i = .ok i') : i' = i ∨ ∃ v, i' = setProp "canSend" v i := by
  obtain ⟨_, _, _, _, unsub, _, h2⟩ := (canSendStep_ok_iff user i i').1 h
  exact Or.inr ⟨_, h2⟩

/-! ### The recipient resolver -/

/-- The object `getUserInfo` builds for the field list of `txnEmail`: `_id` and
`canSend` are always assigned, the latter a boolean. -/
theorem getUserInfo_userFields (user info : JSVal)
    (h : getUserInfo user userFields = .ok info) :
    ∃ props id prefs en unsub,
      info = obj props ∧
      user.get "_id" = .ok id ∧ lookup "_id" props = some id ∧
      user.get "preferences" = .ok prefs ∧ prefs.get "emailNotifications" = .ok en ∧
      en.get "unsubscribeFromAll" = .ok unsub ∧
      lookup "canSend" props = some (.bool unsub.notStrictTrue) := by
  obtain ⟨i1, i2, i3, i4, -, -, h3, h4, rfl⟩ := (getUserInfo_ok_iff _ _ _).1 h
  have r3 : indexOf userFields "_id" ≠ -1 := by decide
  have r4 : indexOf userFields "canSend" ≠ -1 := by decide
  rw [whenRequested_of_requested _ _ _ _ r3] at h3
  rw [whenRequested_of_requested _ _ _ _ r4] at h4
  obtain ⟨id, hid, rfl⟩ := (idStep_ok_iff _ _ _).1 h3
  obtain ⟨prefs, hp, en, he, unsub, hu, rfl⟩ := (canSendStep_ok_iff _ _ _).1 h4
  refine ⟨_, id, prefs, en, unsub, rfl, hid, ?_, hp, he, hu, lookup_setProp_self _ _ _⟩
  rw [lookup_setProp_ne _ _ _ _ (by decide)]
  exact lookup_setProp_self _ _ _

/-- The two branches of the `map` callback. -/
theorem mapInfo_ok_iff (x m : JSVal) :
    mapInfo x = .ok m ↔
      ∃ id, x.get "_id" = .ok id ∧
        ((id.truthy = true ∧ getUserInfo x userFields = .ok m) ∨
         (id.truthy = false ∧ m = x)) := by
  unfold mapInfo
  simp only [bind_eq_ok]
  constructor
  · rintro ⟨id, hid, h⟩
    refine ⟨id, hid, ?_⟩
    cases ht : id.truthy with
    | true => simp only [ht, if_true] at h; exact Or.inl ⟨rfl, h⟩
    | false =>
      simp only [ht, Bool.false_eq_true, if_false, pure_eq_ok] at h
      exact Or.inr ⟨rfl, h.symm⟩
  · rintro ⟨id, hid, h⟩
    refine ⟨id, hid, ?_⟩
    rcases h with ⟨ht, h⟩ | ⟨ht, rfl⟩
    · simp only [ht, if_true]; exact h
    · simp [ht, pure, Except.pure]

/-- Every element the `map` produces can be read from: it is neither `undefined`
nor `null`. -/
theorem mapInfo_not_nullish (x m : JSVal) (h : mapInfo x = .ok m) : m.nullish = false := by
  obtain ⟨id, hid, h⟩ := (mapInfo_ok_iff x m).1 h
  rcases h with ⟨-, h⟩ | ⟨-, rfl⟩
  · obtain ⟨props, _, _, _, _, rfl, -⟩ := getUserInfo_userFields _ _ h
    rfl
  · exact not_nullish_of_get_ok _ _ _ hid

/-- An element of the mapped list that carries an identifier came out of
`getUserInfo`: its `canSend` is a boolean. -/
theorem mapInfo_canSend_bool (x m id : JSVal) (h : mapInfo x = .ok m)
    (hid : m.get "_id" = .ok id) (ht : id.truthy = true) :
    ∃ c : Bool, m.get "canSend" = .ok (.bool c) := by
  obtain ⟨id', hid', h⟩ := (mapInfo_ok_iff x m).1 h
  rcases h with ⟨-, h⟩ | ⟨hf, rfl⟩
  · obtain ⟨props, _, _, _, unsub, rfl, -, -, -, -, -, hc⟩ := getUserInfo_userFields _ _ h
    exact ⟨unsub.notStrictTrue, by simp [get_obj, hc]⟩
  · rw [hid] at hid'
    cases hid'
    rw [ht] at hf
    cases hf

/-- The `filter` callback does not throw on a value that can be read from. -/
theorem keep_total (emailType m : JSVal) (h : m.nullish = false) :
    ∃ b, keep emailType m = .ok b := by
  obtain ⟨email, he⟩ := get_ok_of_not_nullish m "email" h
  obtain ⟨id, hi⟩ := get_ok_of_not_nullish m "_id" h
  obtain ⟨c, hc⟩ := get_ok_of_not_nullish m "canSend" h
  unfold keep
  simp only [he, hi, hc, bind, Except.bind, pure, Except.pure]
  cases email.truthy <;> cases id.truthy <;> cases c.truthy <;> simp

/-- When the `filter` callback accepts. -/
theorem keep_true_iff (emailType m email id c : JSVal)
    (he : m.get "email" = .ok email) (hi : m.get "_id" = .ok id)
    (hc : m.get "canSend" = .ok c) :
    keep emailType m = .ok true ↔
      email.truthy = true ∧
        (id.truthy = false ∨ c.truthy = true ∨ emailType = str "reset-password") := by
  unfold keep
  simp only [he, hi, hc, bind, Except.bind, pure, Except.pure]
  cases email.truthy <;> cases id.truthy <;> cases c.truthy <;>
    simp [strictEqStr_iff]

/-! ### Claims on the recipient resolver -/

/-- Once the `map` has gone through, the resolver returns, and what it returns is
the sublist of the mapped elements the `filter` callback accepts. -/
theorem resolveRecipients_of_mapped (mailingInfoArray emailType : JSVal)
    (mapped : List JSVal)
    (hmap : mapE mapInfo (normalize mailingInfoArray) = .ok mapped) :
    ∃ rs, resolveRecipients mailingInfoArray emailType = .ok rs ∧ rs.Sublist mapped ∧
      ∀ m, m ∈ rs ↔ m ∈ mapped ∧ keep emailType m = .ok true := by
  have htot : ∀ m ∈ mapped, ∃ b, keep emailType m = .ok b := by
    intro m hm
    obtain ⟨x, -, hx⟩ := mapE_mem_right _ _ _ hmap m hm
    exact keep_total _ _ (mapInfo_not_nullish x m hx)
  obtain ⟨rs, hrs, hsub, hmem⟩ := filterE_total (keep emailType) mapped htot
  refine ⟨rs, ?_, hsub, hmem⟩
  unfold resolveRecipients
  simp only [hmap, bind, Except.bind]
  exact hrs

/-- The resolver returns only when the `map` has gone through. -/
theorem mapped_of_resolveRecipients (mailingInfoArray emailType : JSVal) (rs : List JSVal)
    (h : resolveRecipients mailingInfoArray emailType = .ok rs) :
    ∃ mapped, mapE mapInfo (normalize mailingInfoArray) = .ok mapped := by
  unfold resolveRecipients at h
  obtain ⟨mapped, hmap, -⟩ := (bind_eq_ok _ _ _).1 h
  exact ⟨mapped, hmap⟩

/-- On an element the `map` produced, the `filter` callback accepts exactly when
the email is truthy and the element has no identifier, or its `canSend` is `true`,
or the message type is `'reset-password'`. -/
theorem keep_mapped_iff (emailType x m : JSVal) (hx : mapInfo x = .ok m) :
    keep emailType m = .ok true ↔
      (∃ email, m.get "email" = .ok email ∧ email.truthy = true) ∧
      ((∃ id, m.get "_id" = .ok id ∧ id.truthy = false) ∨
        m.get "canSend" = .ok (.bool true) ∨
        emailType = str "reset-password") := by
  have hn := mapInfo_not_nullish x m hx
  obtain ⟨email, he⟩ := get_ok_of_not_nullish m "email" hn
  obtain ⟨id, hi⟩ := get_ok_of_not_nullish m "_id" hn
  obtain ⟨c, hc⟩ := get_ok_of_not_nullish m "canSend" hn
  rw [keep_true_iff emailType m email id c he hi hc]
  constructor
  · rintro ⟨het, hor⟩
    refine ⟨⟨email, he, het⟩, ?_⟩
    rcases hor with h1 | h2 | h3
    · exact Or.inl ⟨id, hi, h1⟩
    · cases hidt : id.truthy with
      | false => exact Or.inl ⟨id, hi, hidt⟩
      | true =>
        obtain ⟨b, hb⟩ := mapInfo_canSend_bool x m id hx hi hidt
        rw [hb] at hc
        cases hc
        cases b with
        | true => exact Or.inr (Or.inl hb)
        | false => simp [truthy] at h2
    · exact Or.inr (Or.inr h3)
  · rintro ⟨⟨email', he', het⟩, hor⟩
    rw [he] at he'
    cases he'
    refine ⟨het, ?_⟩
    rcases hor with ⟨id', hi', h1⟩ | h2 | h3
    · rw [hi] at hi'
      cases hi'
      exact Or.inl h1
    · rw [hc] at h2
      cases h2
      exact Or.inr (Or.inl rfl)
    · exact Or.inr (Or.inr h3)

/-- C1: an element of the mapped list (user records carrying an `_id` replaced by
`getUserInfo(record, ['_id','email','name','canSend'])`) is in the resolved
recipient list if and only if its email is truthy and it has no identifier, or its
`canSend` is `true`, or `emailType` is `'reset-password'`. -/
theorem resolveRecipients_mem_iff (mailingInfoArray emailType : JSVal)
    (mapped : List JSVal)
    (hmap : mapE mapInfo (normalize mailingInfoArray) = .ok mapped) :
    ∃ rs, resolveRecipients mailingInfoArray emailType = .ok rs ∧
      ∀ m, m ∈ rs ↔ m ∈ mapped ∧
        (∃ email, m.get "email" = .ok email ∧ email.truthy = true) ∧
        ((∃ id, m.get "_id" = .ok id ∧ id.truthy = false) ∨
          m.get "canSend" = .ok (.bool true) ∨
          emailType = str "reset-password") := by
  obtain ⟨rs, hrs, -, hmem⟩ := resolveRecipients_of_mapped _ emailType _ hmap
  refine ⟨rs, hrs, ?_⟩
  intro m
  rw [hmem]
  constructor
  · rintro ⟨hm, hk⟩
    obtain ⟨x, -, hx⟩ := mapE_mem_right _ _ _ hmap m hm
    exact ⟨hm, (keep_mapped_iff emailType x m hx).1 hk⟩
  · rintro ⟨hm, hacc⟩
    obtain ⟨x, -, hx⟩ := mapE_mem_right _ _ _ hmap m hm
    exact ⟨hm, (keep_mapped_iff emailType x m hx).2 hacc⟩

/-- C1 at the input `[bobRecord, plainContact]` with `emailType = 'welcome'`. -/
theorem resolveRecipients_mem_iff_witness :
    ∃ rs, resolveRecipients (arr [bobRecord, plainContact]) (str "welcome") = .ok rs ∧
      ∀ m, m ∈ rs ↔ m ∈ [bobInfo true, plainContact] ∧
        (∃ email, m.get "email" = .ok email ∧ email.truthy = true) ∧
        ((∃ id, m.get "_id" = .ok id ∧ id.truthy = false) ∨
          m.get "canSend" = .ok (.bool true) ∨
          str "welcome" = str "reset-password") :=
  resolveRecipients_mem_iff (arr [bobRecord, plainContact]) (str "welcome")
    [bobInfo true, plainContact] rfl

/-- C2: for `emailType = 'reset-password'` no recipient is dropped for its
`canSend` value: every mapped element with a truthy email is in the resolved list,
and so is the `getUserInfo` result of every user record of the input whose email
resolves, whatever its `unsubscribeFromAll` preference is. -/
theorem resolveRecipients_resetPassword (mailingInfoArray : JSVal) (mapped : List JSVal)
    (hmap : mapE mapInfo (normalize mailingInfoArray) = .ok mapped) :
    ∃ rs, resolveRecipients mailingInfoArray (str "reset-password") = .ok rs ∧
      (∀ m ∈ mapped, ∀ email, m.get "email" = .ok email → email.truthy = true → m ∈ rs) ∧
      (∀ user ∈ normalize mailingInfoArray, ∀ id info email,
        user.get "_id" = .ok id → id.truthy = true →
        getUserInfo user userFields = .ok info →
        info.get "email" = .ok email → email.truthy = true → info ∈ rs) := by
  obtain ⟨rs, hrs, -, hmem⟩ := resolveRecipients_of_mapped _ (str "reset-password") _ hmap
  have hkeep : ∀ m ∈ mapped, ∀ email, m.get "email" = .ok email → email.truthy = true →
      m ∈ rs := by
    intro m hm email he het
    obtain ⟨x, -, hx⟩ := mapE_mem_right _ _ _ hmap m hm
    exact (hmem m).2 ⟨hm, (keep_mapped_iff _ x m hx).2 ⟨⟨email, he, het⟩, Or.inr (Or.inr rfl)⟩⟩
  refine ⟨rs, hrs, hkeep, ?_⟩
  intro user hu id info email hid hidt hinfo he het
  obtain ⟨m, hm, hmi⟩ := mapE_mem_left _ _ _ hmap user hu
  have hmap' : mapInfo user = .ok info :=
    (mapInfo_ok_iff user info).2 ⟨id, hid, Or.inl ⟨hidt, hinfo⟩⟩
  rw [hmap'] at hmi
  cases hmi
  exact hkeep _ hm email he het

/-- C2 at the specification's example: `bobUnsubscribed` (`u1`, `bob@x.com`,
`unsubscribeFromAll = true`) is still resolved for `'reset-password'`. -/
theorem resolveRecipients_resetPassword_witness :
    ∃ rs, resolveRecipients (arr [bobUnsubscribed]) (str "reset-password") = .ok rs ∧
      bobInfo false ∈ rs := by
  obtain ⟨rs, hrs, -, huser⟩ :=
    resolveRecipients_resetPassword (arr [bobUnsubscribed]) [bobInfo false] rfl
  exact ⟨rs, hrs, huser bobUnsubscribed (List.mem_singleton.2 rfl) (str "u1") (bobInfo false)
    (str "bob@x.com") rfl rfl rfl rfl rfl⟩

/-- C3, as the claim states it, fails: `plainContact` has `canSend = false`, the
message type `'welcome'` is not `'reset-password'`, and the contact is resolved. -/
theorem resolveRecipients_plainContact_kept :
    plainContact.get "canSend" = .ok (.bool false) ∧
    (str "welcome").strictEqStr "reset-password" = false ∧
    resolveRecipients (arr [plainContact]) (str "welcome") = .ok [plainContact] :=
  ⟨rfl, rfl, rfl⟩

/-- C3 (amended): for every `emailType` other than `'reset-password'`, every
resolved recipient that carries an identifier has `canSend = true`, and the
`getUserInfo` result of a user record whose
`preferences.emailNotifications.unsubscribeFromAll` is `true` is not in the
resolved list. -/
theorem resolveRecipients_honors_optOut (mailingInfoArray emailType : JSVal)
    (mapped : List JSVal)
    (hmap : mapE mapInfo (normalize mailingInfoArray) = .ok mapped)
    (htype : emailType ≠ str "reset-password") :
    ∃ rs, resolveRecipients mailingInfoArray emailType = .ok rs ∧
      (∀ m ∈ rs, ∀ id, m.get "_id" = .ok id → id.truthy = true →
        m.get "canSend" = .ok (.bool true)) ∧
      (∀ user ∈ normalize mailingInfoArray, ∀ id prefs en info,
        user.get "_id" = .ok id → id.truthy = true →
        user.get "preferences" = .ok prefs → prefs.get "emailNotifications" = .ok en →
        en.get "unsubscribeFromAll" = .ok (.bool true) →
        getUserInfo user userFields = .ok info → info ∉ rs) := by
  obtain ⟨rs, hrs, -, hmem⟩ := resolveRecipients_of_mapped _ emailType _ hmap
  have hid : ∀ m ∈ rs, ∀ id, m.get "_id" = .ok id → id.truthy = true →
      m.get "canSend" = .ok (.bool true) := by
    intro m hm id hi hidt
    obtain ⟨hmm, hk⟩ := (hmem m).1 hm
    obtain ⟨x, -, hx⟩ := mapE_mem_right _ _ _ hmap m hmm
    obtain ⟨-, hor⟩ := (keep_mapped_iff emailType x m hx).1 hk
    rcases hor with ⟨id', hi', h1⟩ | h2 | h3
    · rw [hi] at hi'
      cases hi'
      rw [hidt] at h1
      cases h1
    · exact h2
    · exact absurd h3 htype
  refine ⟨rs, hrs, hid, ?_⟩
  intro user _ id prefs en info hi hidt hp he hu hinfo hin
  obtain ⟨props, id', prefs', en', unsub', rfl, hi', hlid, hp', he', hu', hlc⟩ :=
    getUserInfo_userFields _ _ hinfo
  rw [hi] at hi'; cases hi'
  rw [hp] at hp'; cases hp'
  rw [he] at he'; cases he'
  rw [hu] at hu'; cases hu'
  have h1 := hid _ hin id (by simp [get_obj, hlid]) hidt
  simp [get_obj, hlc, notStrictTrue] at h1

/-- C3 (amended) at `[bobUnsubscribed]` with `emailType = 'welcome'`: the
unsubscribed user is not resolved. -/
theorem resolveRecipients_honors_optOut_witness :
    ∃ rs, resolveRecipients (arr [bobUnsubscribed]) (str "welcome") = .ok rs ∧
      bobInfo false ∉ rs := by
  obtain ⟨rs, hrs, -, huser⟩ :=
    resolveRecipients_honors_optOut (arr [bobUnsubscribed]) (str "welcome") [bobInfo false]
      rfl (by simp)
  exact ⟨rs, hrs, huser bobUnsubscribed (List.mem_singleton.2 rfl) (str "u1") _ _
    (bobInfo false) rfl rfl rfl rfl rfl rfl⟩

/-! ### Claim on the job handed to the queue -/

/-- C4: every entry of the `to` field of a job `txnEmail` hands to the queue has a
truthy (non-empty) email; the `to` field is the resolved recipient list. -/
theorem txnEmail_to_has_email (env : Env)
    (mailingInfoArray emailType vars personalVariables : JSVal) (calls : List JSVal)
    (h : txnEmail env mailingInfoArray emailType vars personalVariables = .ok calls) :
    ∀ body ∈ calls, ∃ data recipients,
      body.get "data" = .ok data ∧ data.get "to" = .ok (arr recipients) ∧
      resolveRecipients mailingInfoArray emailType = .ok recipients ∧
      ∀ r ∈ recipients, ∃ email, r.get "email" = .ok email ∧ email.truthy = true ∧
        email ≠ str "" ∧ email ≠ undefined ∧ email ≠ null := by
  unfold txnEmail at h
  simp only [bind_eq_ok] at h
  obtain ⟨rs, hrs, merged, -, h⟩ := h
  have hemail : ∀ r ∈ rs, ∃ email, r.get "email" = .ok email ∧ email.truthy = true ∧
      email ≠ str "" ∧ email ≠ undefined ∧ email ≠ null := by
    intro r hr
    obtain ⟨mapped, hmap⟩ := mapped_of_resolveRecipients _ _ _ hrs
    obtain ⟨rs', hrs', -, hmem⟩ := resolveRecipients_of_mapped _ emailType _ hmap
    rw [hrs] at hrs'
    cases hrs'
    obtain ⟨hrm, hk⟩ := (hmem r).1 hr
    obtain ⟨x, -, hx⟩ := mapE_mem_right _ _ _ hmap r hrm
    obtain ⟨⟨email, he, het⟩, -⟩ := (keep_mapped_iff emailType x r hx).1 hk
    refine ⟨email, he, het, ?_, ?_, ?_⟩ <;> rintro rfl <;> simp [truthy] at het
  intro body hbody
  split at h
  · rw [pure_eq_ok] at h
    subst h
    rw [List.mem_singleton] at hbody
    subst hbody
    exact ⟨_, rs, rfl, rfl, hrs, hemail⟩
  · rw [pure_eq_ok] at h
    subst h
    simp at hbody

/-- C4 at the production call `txnEmail ([bobRecord], 'welcome')`: one job, whose
`to` entries have a truthy email. -/
theorem txnEmail_to_has_email_witness :
    ∃ job, txnEmail sampleEnv (arr [bobRecord]) (str "welcome") undefined undefined
        = .ok [job] ∧
      ∃ data recipients,
        job.get "data" = .ok data ∧ data.get "to" = .ok (arr recipients) ∧
        resolveRecipients (arr [bobRecord]) (str "welcome") = .ok recipients ∧
        ∀ r ∈ recipients, ∃ email, r.get "email" = .ok email ∧ email.truthy = true ∧
          email ≠ str "" ∧ email ≠ undefined ∧ email ≠ null :=
  ⟨_, rfl, txnEmail_to_has_email sampleEnv (arr [bobRecord]) (str "welcome") undefined
    undefined _ rfl _ (List.mem_singleton.2 rfl)⟩

/-! ### Claims on `getUserInfo` -/

/-- The keys of the object `getUserInfo` returns are decided each by its own
statement: `name` by the first, `email` by the second. -/
theorem getUserInfo_chain (user : JSVal) (fields : List JSVal) (info : JSVal)
    (h : getUserInfo user fields = .ok info) :
    ∃ i1 i2 i3 i4,
      whenRequested fields "name" (nameStep user) [] = .ok i1 ∧
      whenRequested fields "email" (emailStep user) i1 = .ok i2 ∧
      whenRequested fields "_id" (idStep user) i2 = .ok i3 ∧
      whenRequested fields "canSend" (canSendStep user) i3 = .ok i4 ∧
      info = obj i4 ∧
      lookup "name" i4 = lookup "name" i1 ∧
      lookup "email" i4 = lookup "email" i2 ∧
      lookup "email" i1 = none := by
  obtain ⟨i1, i2, i3, i4, h1, h2, h3, h4, rfl⟩ := (getUserInfo_ok_iff _ _ _).1 h
  refine ⟨i1, i2, i3, i4, h1, h2, h3, h4, rfl, ?_, ?_, ?_⟩
  · rw [whenRequested_lookup_ne _ _ "name" _ _ _ (canSendStep_frame user) h4 (by decide),
      whenRequested_lookup_ne _ _ "name" _ _ _ (idStep_frame user) h3 (by decide),
      whenRequested_lookup_ne _ _ "name" _ _ _ (emailStep_frame' user) h2 (by decide)]
  · rw [whenRequested_lookup_ne _ _ "email" _ _ _ (canSendStep_frame user) h4 (by decide),
      whenRequested_lookup_ne _ _ "email" _ _ _ (idStep_frame user) h3 (by decide)]
  · rw [whenRequested_lookup_ne _ _ "email" _ _ _ (nameStep_frame' user) h1 (by decide)]
    rfl

/-- A call that requests only `name` returns the object the `name` block builds. -/
theorem getUserInfo_only_name (user : JSVal) (i1 : List (String × JSVal))
    (h : nameStep user [] = .ok i1) : getUserInfo user [str "name"] = .ok (obj i1) := by
  refine (getUserInfo_ok_iff _ _ _).2 ⟨i1, i1, i1, i1, ?_, ?_, ?_, ?_, rfl⟩
  · rw [whenRequested_of_requested _ _ _ _ (by decide)]; exact h
  · exact whenRequested_of_not_requested _ _ _ _ (by decide)
  · exact whenRequested_of_not_requested _ _ _ _ (by decide)
  · exact whenRequested_of_not_requested _ _ _ _ (by decide)

/-- A call that requests only `email` returns the object the `email` block
builds. -/
theorem getUserInfo_only_email (user : JSVal) (i2 : List (String × JSVal))
    (h : emailStep user [] = .ok i2) : getUserInfo user [str "email"] = .ok (obj i2) := by
  refine (getUserInfo_ok_iff _ _ _).2 ⟨[], i2, i2, i2, ?_, ?_, ?_, ?_, rfl⟩
  · exact whenRequested_of_not_requested _ _ _ _ (by decide)
  · rw [whenRequested_of_requested _ _ _ _ (by decide)]; exact h
  · exact whenRequested_of_not_requested _ _ _ _ (by decide)
  · exact whenRequested_of_not_requested _ _ _ _ (by decide)

/-- A call that requests only `canSend` returns the object the `canSend` block
builds. -/
theorem getUserInfo_only_canSend (user : JSVal) (i4 : List (String × JSVal))
    (h : canSendStep user [] = .ok i4) :
    getUserInfo user [str "canSend"] = .ok (obj i4) := by
  refine (getUserInfo_ok_iff _ _ _).2 ⟨[], [], [], i4, ?_, ?_, ?_, ?_, rfl⟩
  · exact whenRequested_of_not_requested _ _ _ _ (by decide)
  · exact whenRequested_of_not_requested _ _ _ _ (by decide)
  · exact whenRequested_of_not_requested _ _ _ _ (by decide)
  · rw [whenRequested_of_requested _ _ _ _ (by decide)]; exact h

/-- The name read off the result of a call that requests `name` is the one the
`name` block assigns. -/
theorem getUserInfo_name_of_step (user : JSVal) (fields : List JSVal) (info n : JSVal)
    (hstep : ∀ i, nameStep user i = .ok (setProp "name" n i))
    (hreq : str "name" ∈ fields) (h : getUserInfo user fields = .ok info) :
    info.get "name" = .ok n := by
  obtain ⟨i1, i2, i3, i4, h1, -, -, -, rfl, hname, -, -⟩ := getUserInfo_chain _ _ _ h
  rw [whenRequested_of_requested _ _ _ _ ((indexOf_ne_iff _ _).2 hreq), hstep] at h1
  cases h1
  rw [get_obj, hname]
  rfl

/-- C5, as the claim states it, fails: `noPreferences` is a user record whose
unsubscribe preference is absent (it has no `preferences` block), and
`getUserInfo` with `canSend` requested throws on it instead of yielding
`canSend = true`. -/
theorem getUserInfo_canSend_throws_without_preferences :
    noPreferences.get "preferences" = .ok undefined ∧
    getUserInfo noPreferences [str "canSend"] = .error .typeError ∧
    getUserInfo noPreferences userFields = .error .typeError :=
  ⟨rfl, rfl, rfl⟩

/-- C5 (amended): for a user record whose `preferences.emailNotifications` block
is present, `getUserInfo` with `canSend` requested yields `canSend = false` when
`unsubscribeFromAll` is exactly `true`, and `canSend = true` for every other value
of the preference, `undefined` (absent from the block) included. -/
theorem getUserInfo_canSend (user prefs en unsub : JSVal)
    (hp : user.get "preferences" = .ok prefs)
    (he : prefs.get "emailNotifications" = .ok en)
    (hu : en.get "unsubscribeFromAll" = .ok unsub) :
    (unsub = .bool true →
      getUserInfo user [str "canSend"] = .ok (obj [("canSend", .bool false)]) ∧
      ∀ fields info, str "canSend" ∈ fields → getUserInfo user fields = .ok info →
        info.get "canSend" = .ok (.bool false)) ∧
    (unsub ≠ .bool true →
      getUserInfo user [str "canSend"] = .ok (obj [("canSend", .bool true)]) ∧
      ∀ fields info, str "canSend" ∈ fields → getUserInfo user fields = .ok info →
        info.get "canSend" = .ok (.bool true)) := by
  have hstep : ∀ i, canSendStep user i
      = .ok (setProp "canSend" (.bool unsub.notStrictTrue) i) := fun i =>
    (canSendStep_ok_iff _ _ _).2 ⟨prefs, hp, en, he, unsub, hu, rfl⟩
  have hgen : ∀ fields info, str "canSend" ∈ fields → getUserInfo user fields = .ok info →
      info.get "canSend" = .ok (.bool unsub.notStrictTrue) := by
    intro fields info hreq hget
    obtain ⟨i1, i2, i3, i4, -, -, -, h4, rfl, -⟩ := getUserInfo_chain _ _ _ hget
    rw [whenRequested_of_requested _ _ _ _ ((indexOf_ne_iff _ _).2 hreq), hstep] at h4
    cases h4
    rw [get_obj, lookup_setProp_self]
    rfl
  have hone := getUserInfo_only_canSend user _ (hstep [])
  constructor
  · intro htrue
    have hc : unsub.notStrictTrue = false := (notStrictTrue_eq_false_iff _).2 htrue
    rw [hc] at hone hgen
    exact ⟨hone, hgen⟩
  · intro hne
    have hc : unsub.notStrictTrue = true := by
      cases hb : unsub.notStrictTrue with
      | true => rfl
      | false => exact absurd ((notStrictTrue_eq_false_iff _).1 hb) hne
    rw [hc] at hone hgen
    exact ⟨hone, hgen⟩

/-- C5 (amended) at `bobUnsubscribed` (preference `true`, `canSend` is `false`) and at
`bobRecord` (preference absent, `canSend` is `true`). -/
theorem getUserInfo_canSend_witness :
    (getUserInfo bobUnsubscribed [str "canSend"] = .ok (obj [("canSend", .bool false)]) ∧
      ∀ fields info, str "canSend" ∈ fields →
        getUserInfo bobUnsubscribed fields = .ok info →
        info.get "canSend" = .ok (.bool false)) ∧
    (getUserInfo bobRecord [str "canSend"] = .ok (obj [("canSend", .bool true)]) ∧
      ∀ fields info, str "canSend" ∈ fields → getUserInfo bobRecord fields = .ok info →
        info.get "canSend" = .ok (.bool true)) :=
  ⟨(getUserInfo_canSend bobUnsubscribed
      (obj [("emailNotifications", obj [("unsubscribeFromAll", .bool true)])])
      (obj [("unsubscribeFromAll", .bool true)]) (.bool true) rfl rfl rfl).1 rfl,
    (getUserInfo_canSend bobRecord (obj [("emailNotifications", obj [])]) (obj [])
      undefined rfl rfl rfl).2 (by simp)⟩

/-- The `name` block for a record with a local identity. -/
theorem nameStep_local (user auth loc profile pname : JSVal) (i : List (String × JSVal))
    (ha : user.get "auth" = .ok auth) (hl : auth.get "local" = .ok loc)
    (hlt : loc.truthy = true)
    (hp : user.get "profile" = .ok profile) (hn : profile.get "name" = .ok pname) :
    nameStep user i = (orElse pname (loc.get "username")).map (fun n => setProp "name" n i) := by
  unfold nameStep
  simp only [ha, hl, hlt, hp, hn, bind, Except.bind, if_true]
  cases orElse pname (loc.get "username") <;> rfl

/-- The `name` block for a record with a facebook identity and no local one. -/
theorem nameStep_facebook (user auth loc fb profile pname : JSVal)
    (i : List (String × JSVal))
    (ha : user.get "auth" = .ok auth) (hl : auth.get "local" = .ok loc)
    (hlt : loc.truthy = false)
    (hf : auth.get "facebook" = .ok fb) (hft : fb.truthy = true)
    (hp : user.get "profile" = .ok profile) (hn : profile.get "name" = .ok pname) :
    nameStep user i =
      (orElse pname (fb.get "displayName" >>= fun dn => orElse dn (fb.get "username"))).map
        (fun n => setProp "name" n i) := by
  unfold nameStep
  simp only [ha, hl, hlt, hf, hft, hp, hn, bind, Except.bind, if_true,
    Bool.false_eq_true, if_false]
  cases orElse pname _ <;> rfl

/-- The `name` block for a record with neither identity: nothing is assigned. -/
theorem nameStep_none (user auth loc fb : JSVal) (i : List (String × JSVal))
    (ha : user.get "auth" = .ok auth) (hl : auth.get "local" = .ok loc)
    (hlt : loc.truthy = false)
    (hf : auth.get "facebook" = .ok fb) (hft : fb.truthy = false) :
    nameStep user i = .ok i := by
  unfold nameStep
  simp only [ha, hl, hlt, hf, hft, bind, Except.bind, Bool.false_eq_true, if_false]
  rfl

/-- C6: for a record with a local identity and a truthy (set, non-empty) profile
name, `getUserInfo` with `name` requested yields the profile name, whatever the
local username is. -/
theorem getUserInfo_name_prefers_profile (user auth loc profile pname : JSVal)
    (ha : user.get "auth" = .ok auth) (hl : auth.get "local" = .ok loc)
    (hlt : loc.truthy = true)
    (hp : user.get "profile" = .ok profile) (hn : profile.get "name" = .ok pname)
    (hpt : pname.truthy = true) :
    getUserInfo user [str "name"] = .ok (obj [("name", pname)]) ∧
    ∀ fields info, str "name" ∈ fields → getUserInfo user fields = .ok info →
      info.get "name" = .ok pname := by
  have hstep : ∀ i, nameStep user i = .ok (setProp "name" pname i) := by
    intro i
    rw [nameStep_local user auth loc profile pname i ha hl hlt hp hn]
    simp [orElse, hpt, Except.map]
  exact ⟨getUserInfo_only_name user _ (hstep []),
    fun fields info hreq h => getUserInfo_name_of_step user fields info pname hstep hreq h⟩

/-- C6 at `bobNamed`: username `bob`, profile name `Bobby`, and the name is
`Bobby`. -/
theorem getUserInfo_name_prefers_profile_witness :
    (obj [("username", str "bob"), ("email", str "bob@x.com")]).get "username"
      = .ok (str "bob") ∧
    getUserInfo bobNamed [str "name"] = .ok (obj [("name", str "Bobby")]) ∧
    ∀ fields info, str "name" ∈ fields → getUserInfo bobNamed fields = .ok info →
      info.get "name" = .ok (str "Bobby") :=
  ⟨rfl, getUserInfo_name_prefers_profile bobNamed
    (obj [("local", obj [("username", str "bob"), ("email", str "bob@x.com")])])
    (obj [("username", str "bob"), ("email", str "bob@x.com")])
    (obj [("name", str "Bobby")]) (str "Bobby") rfl rfl rfl rfl rfl rfl⟩

/-- C7, as the claim states it, fails: `localWithoutUsername` has no profile name,
no local username and the facebook display name `FB Bob`, and its name is
`undefined`, not `FB Bob`. -/
theorem getUserInfo_name_no_cross_fallback :
    (obj ([] : List (String × JSVal))).get "name" = .ok undefined ∧
    (obj [("email", str "l@x.com")]).get "username" = .ok undefined ∧
    (obj [("displayName", str "FB Bob"), ("username", str "fbbob")]).get "displayName"
      = .ok (str "FB Bob") ∧
    getUserInfo localWithoutUsername [str "name"] = .ok (obj [("name", undefined)]) :=
  ⟨rfl, rfl, rfl, rfl⟩

/-- C7 (amended): for a record whose profile block is present and holds no truthy
name, `getUserInfo` with `name` requested yields the local username when a local
identity is present (whatever a facebook identity holds); when no local identity
is present and a facebook one is, it yields the facebook display name if that is
truthy and the facebook username otherwise. -/
theorem getUserInfo_name_fallback (user auth loc fb profile pname : JSVal)
    (ha : user.get "auth" = .ok auth) (hl : auth.get "local" = .ok loc)
    (hf : auth.get "facebook" = .ok fb)
    (hp : user.get "profile" = .ok profile) (hn : profile.get "name" = .ok pname)
    (hpt : pname.truthy = false) :
    (loc.truthy = true → ∀ un, loc.get "username" = .ok un →
      getUserInfo user [str "name"] = .ok (obj [("name", un)]) ∧
      ∀ fields info, str "name" ∈ fields → getUserInfo user fields = .ok info →
        info.get "name" = .ok un) ∧
    (loc.truthy = false → fb.truthy = true →
      ∀ dn un, fb.get "displayName" = .ok dn → fb.get "username" = .ok un →
        (dn.truthy = true →
          getUserInfo user [str "name"] = .ok (obj [("name", dn)]) ∧
          ∀ fields info, str "name" ∈ fields → getUserInfo user fields = .ok info →
            info.get "name" = .ok dn) ∧
        (dn.truthy = false →
          getUserInfo user [str "name"] = .ok (obj [("name", un)]) ∧
          ∀ fields info, str "name" ∈ fields → getUserInfo user fields = .ok info →
            info.get "name" = .ok un)) := by
  have fin : ∀ n, (∀ i, nameStep user i = .ok (setProp "name" n i)) →
      getUserInfo user [str "name"] = .ok (obj [("name", n)]) ∧
      ∀ fields info, str "name" ∈ fields → getUserInfo user fields = .ok info →
        info.get "name" = .ok n := fun n hstep =>
    ⟨getUserInfo_only_name user _ (hstep []),
      fun fields info hreq h => getUserInfo_name_of_step user fields info n hstep hreq h⟩
  constructor
  · intro hlt un hun
    apply fin
    intro i
    rw [nameStep_local user auth loc profile pname i ha hl hlt hp hn]
    simp [orElse, hpt, hun, Except.map]
  · intro hlt hft dn un hdn hun
    constructor
    · intro hdt
      apply fin
      intro i
      rw [nameStep_facebook user auth loc fb profile pname i ha hl hlt hf hft hp hn]
      simp [orElse, hpt, hdn, hdt, Except.map, bind, Except.bind]
    · intro hdt
      apply fin
      intro i
      rw [nameStep_facebook user auth loc fb profile pname i ha hl hlt hf hft hp hn]
      simp [orElse, hpt, hdn, hdt, hun, Except.map, bind, Except.bind]

/-- C7 (amended) at `bobRecord` (local username `bob`) and at `facebookUser`
(display name `FB Bob`). -/
theorem getUserInfo_name_fallback_witness :
    getUserInfo bobRecord [str "name"] = .ok (obj [("name", str "bob")]) ∧
    getUserInfo facebookUser [str "name"] = .ok (obj [("name", str "FB Bob")]) :=
  ⟨((getUserInfo_name_fallback bobRecord
      (obj [("local", obj [("username", str "bob"), ("email", str "bob@x.com")])])
      (obj [("username", str "bob"), ("email", str "bob@x.com")]) undefined
      (obj []) undefined rfl rfl rfl rfl rfl rfl).1 rfl (str "bob") rfl).1,
    (((getUserInfo_name_fallback facebookUser
      (obj [("facebook", obj [("displayName", str "FB Bob"), ("username", str "fbbob"),
        ("emails", arr [obj [("value", str "fb@x.com")]])])])
      undefined
      (obj [("displayName", str "FB Bob"), ("username", str "fbbob"),
        ("emails", arr [obj [("value", str "fb@x.com")]])])
      (obj []) undefined rfl rfl rfl rfl rfl rfl).2 rfl rfl (str "FB Bob") (str "fbbob")
      rfl rfl).1 rfl).1⟩

theorem getFirst_ok_of_truthy (v : JSVal) (h : v.truthy = true) : ∃ w, v.getFirst = .ok w := by
  cases v <;> simp_all [JSVal.getFirst, truthy]

/-- The value of `user.auth.local && user.auth.local.email`: it is truthy exactly
when the local identity is present with a truthy email, and then it is that
email. -/
theorem localEmail_spec (user auth loc : JSVal)
    (ha : user.get "auth" = .ok auth) (hl : auth.get "local" = .ok loc) :
    ∃ r, localEmail user = .ok r ∧
      (r.truthy = true ↔
        ∃ le, loc.truthy = true ∧ loc.get "email" = .ok le ∧ le.truthy = true) ∧
      (∀ le, loc.truthy = true → loc.get "email" = .ok le → r = le) := by
  unfold localEmail
  simp only [ha, hl, bind, Except.bind]
  cases hlt : loc.truthy with
  | true =>
    obtain ⟨le, hle⟩ := get_ok_of_not_nullish loc "email" (not_nullish_of_truthy loc hlt)
    refine ⟨le, by simp [hle], ?_, ?_⟩
    · constructor
      · intro h; exact ⟨le, rfl, hle, h⟩
      · rintro ⟨le', -, hle', h⟩
        rw [hle] at hle'
        cases hle'
        exact h
    · intro le' _ hle'
      rw [hle] at hle'
      cases hle'
      rfl
  | false =>
    refine ⟨loc, by simp [pure, Except.pure], ?_, ?_⟩
    · simp [hlt]
    · intro le h
      cases h

/-- The value of the condition of line 47: it is truthy exactly when the facebook
identity, its `emails`, the first entry and that entry's `value` are all truthy,
and then it is that `value`. -/
theorem facebookEmail_spec (user auth fb : JSVal)
    (ha : user.get "auth" = .ok auth) (hf : auth.get "facebook" = .ok fb) :
    ∃ r, facebookEmail user = .ok r ∧
      (r.truthy = true ↔
        ∃ emails first v, fb.truthy = true ∧ fb.get "emails" = .ok emails ∧
          emails.truthy = true ∧ emails.getFirst = .ok first ∧ first.truthy = true ∧
          first.get "value" = .ok v ∧ v.truthy = true) ∧
      (∀ emails first v, fb.truthy = true → fb.get "emails" = .ok emails →
          emails.truthy = true → emails.getFirst = .ok first → first.truthy = true →
          first.get "value" = .ok v → r = v) := by
  unfold facebookEmail
  simp only [ha, hf, bind, Except.bind]
  cases hft : fb.truthy with
  | false =>
    refine ⟨fb, by simp [pure, Except.pure], ?_, ?_⟩
    · simp [hft]
    · intro _ _ _ h
      cases h
  | true =>
    obtain ⟨emails, hem⟩ := get_ok_of_not_nullish fb "emails" (not_nullish_of_truthy fb hft)
    cases het : emails.truthy with
    | false =>
      refine ⟨emails, by simp [hem, het, pure, Except.pure], ?_, ?_⟩
      · constructor
        · intro h
          rw [het] at h
          cases h
        · rintro ⟨emails', _, _, -, hem', het', -⟩
          rw [hem] at hem'
          cases hem'
          rw [het] at het'
          cases het'
      · intro emails' _ _ _ hem' het'
        rw [hem] at hem'
        cases hem'
        rw [het] at het'
        cases het'
    | true =>
      obtain ⟨first, hfi⟩ := getFirst_ok_of_truthy emails het
      cases hfit : first.truthy with
      | false =>
        refine ⟨first, by simp [hem, het, hfi, hfit, pure, Except.pure], ?_, ?_⟩
        · constructor
          · intro h
            rw [hfit] at h
            cases h
          · rintro ⟨emails', first', _, -, hem', -, hfi', hfit', -⟩
            rw [hem] at hem'
            cases hem'
            rw [hfi] at hfi'
            cases hfi'
            rw [hfit] at hfit'
            cases hfit'
        · intro emails' first' _ _ hem' _ hfi' hfit'
          rw [hem] at hem'
          cases hem'
          rw [hfi] at hfi'
          cases hfi'
          rw [hfit] at hfit'
          cases hfit'
      | true =>
        obtain ⟨v, hv⟩ :=
          get_ok_of_not_nullish first "value" (not_nullish_of_truthy first hfit)
        refine ⟨v, by simp [hem, het, hfi, hfit, hv], ?_, ?_⟩
        · constructor
          · intro h
            exact ⟨emails, first, v, rfl, hem, het, hfi, hfit, hv, h⟩
          · rintro ⟨emails', first', v', -, hem', -, hfi', -, hv', h⟩
            rw [hem] at hem'
            cases hem'
            rw [hfi] at hfi'
            cases hfi'
            rw [hv] at hv'
            cases hv'
            exact h
        · intro emails' first' v' _ hem' _ hfi' _ hv'
          rw [hem] at hem'
          cases hem'
          rw [hfi] at hfi'
          cases hfi'
          rw [hv] at hv'
          cases hv'
          rfl

/-- The email read off the result of a call that requests `email` is the one the
`email` block assigns. -/
theorem getUserInfo_email_of_step (user : JSVal) (fields : List JSVal) (info e : JSVal)
    (hstep : ∀ i, emailStep user i = .ok (setProp "email" e i))
    (hreq : str "email" ∈ fields) (h : getUserInfo user fields = .ok info) :
    info.get "email" = .ok e := by
  obtain ⟨i1, i2, i3, i4, -, h2, -, -, rfl, -, hemail, -⟩ := getUserInfo_chain _ _ _ h
  rw [whenRequested_of_requested _ _ _ _ ((indexOf_ne_iff _ _).2 hreq), hstep] at h2
  cases h2
  rw [get_obj, hemail, lookup_setProp_self]
  rfl

/-- When the `email` block assigns nothing, the result has no `email` key. -/
theorem getUserInfo_email_omitted_of_step (user : JSVal) (fields : List JSVal)
    (info : JSVal) (hstep : ∀ i, emailStep user i = .ok i)
    (h : getUserInfo user fields = .ok info) : info.hasKey "email" = false := by
  obtain ⟨i1, i2, i3, i4, -, h2, -, -, rfl, -, hemail, hnone⟩ := getUserInfo_chain _ _ _ h
  have hi2 : i2 = i1 := by
    unfold whenRequested at h2
    split at h2
    · rw [hstep] at h2
      cases h2
      rfl
    · cases h2
      rfl
  subst hi2
  simp [hasKey, hemail, hnone]

/-- C8, as the claim states it, fails: the facebook `emails` list of
`facebookEmptyEmail` is present and non-empty and the `value` of its first entry is
the empty string, yet the result has no `email` key (a read of it gives
`undefined`, not that value). -/
theorem getUserInfo_email_empty_value_omitted :
    (obj [("emails", arr [obj [("value", str "")]])]).get "emails"
      = .ok (arr [obj [("value", str "")]]) ∧
    (arr [obj [("value", str "")]]).getFirst = .ok (obj [("value", str "")]) ∧
    (obj [("value", str "")]).get "value" = .ok (str "") ∧
    getUserInfo facebookEmptyEmail [str "email"] = .ok (obj []) ∧
    (obj ([] : List (String × JSVal))).hasKey "email" = false ∧
    (obj ([] : List (String × JSVal))).get "email" = .ok undefined :=
  ⟨rfl, rfl, rfl, rfl, rfl, rfl⟩

/-- C8 (amended): with `email` requested, `getUserInfo` yields the local email
when the local identity is present with a truthy email; otherwise the `value` of
the first entry of the facebook `emails` list when the facebook identity, the
list, its first entry and that `value` are all truthy; otherwise the result has no
`email` key. -/
theorem getUserInfo_email (user auth loc fb : JSVal)
    (ha : user.get "auth" = .ok auth) (hl : auth.get "local" = .ok loc)
    (hf : auth.get "facebook" = .ok fb) :
    (∀ le, loc.truthy = true → loc.get "email" = .ok le → le.truthy = true →
      getUserInfo user [str "email"] = .ok (obj [("email", le)]) ∧
      ∀ fields info, str "email" ∈ fields → getUserInfo user fields = .ok info →
        info.get "email" = .ok le) ∧
    ((¬ ∃ le, loc.truthy = true ∧ loc.get "email" = .ok le ∧ le.truthy = true) →
      (∀ emails first v, fb.truthy = true → fb.get "emails" = .ok emails →
        emails.truthy = true → emails.getFirst = .ok first → first.truthy = true →
        first.get "value" = .ok v → v.truthy = true →
        getUserInfo user [str "email"] = .ok (obj [("email", v)]) ∧
        ∀ fields info, str "email" ∈ fields → getUserInfo user fields = .ok info →
          info.get "email" = .ok v) ∧
      ((¬ ∃ emails first v, fb.truthy = true ∧ fb.get "emails" = .ok emails ∧
          emails.truthy = true ∧ emails.getFirst = .ok first ∧ first.truthy = true ∧
          first.get "value" = .ok v ∧ v.truthy = true) →
        getUserInfo user [str "email"] = .ok (obj []) ∧
        ∀ fields info, getUserInfo user fields = .ok info →
          info.hasKey "email" = false)) := by
  obtain ⟨rl, hrl, hrlt, hrle⟩ := localEmail_spec user auth loc ha hl
  obtain ⟨rf, hrf, hrft, hrfe⟩ := facebookEmail_spec user auth fb ha hf
  have fin : ∀ e, (∀ i, emailStep user i = .ok (setProp "email" e i)) →
      getUserInfo user [str "email"] = .ok (obj [("email", e)]) ∧
      ∀ fields info, str "email" ∈ fields → getUserInfo user fields = .ok info →
        info.get "email" = .ok e := fun e hstep =>
    ⟨getUserInfo_only_email user _ (hstep []),
      fun fields info hreq h => getUserInfo_email_of_step user fields info e hstep hreq h⟩
  refine ⟨?_, ?_⟩
  · intro le hlt hle hlet
    have hr : rl = le := hrle le hlt hle
    subst hr
    apply fin
    intro i
    unfold emailStep
    simp [hrl, hlet, bind, Except.bind, pure, Except.pure]
  · intro hnl
    have hrlf : rl.truthy = false := by
      cases h : rl.truthy with
      | false => rfl
      | true => exact absurd (hrlt.1 h) hnl
    refine ⟨?_, ?_⟩
    · intro emails first v hft hem het hfi hfit hv hvt
      have hr : rf = v := hrfe emails first v hft hem het hfi hfit hv
      subst hr
      apply fin
      intro i
      unfold emailStep
      simp [hrl, hrlf, hrf, hvt, bind, Except.bind, pure, Except.pure]
    · intro hnf
      have hrff : rf.truthy = false := by
        cases h : rf.truthy with
        | false => rfl
        | true => exact absurd (hrft.1 h) hnf
      have hstep : ∀ i, emailStep user i = .ok i := by
        intro i
        unfold emailStep
        simp [hrl, hrlf, hrf, hrff, bind, Except.bind, pure, Except.pure]
      exact ⟨getUserInfo_only_email user _ (hstep []),
        fun fields info h => getUserInfo_email_omitted_of_step user fields info hstep h⟩

/-- C8 (amended) at `bobRecord` (local email), `facebookUser` (first facebook
email) and `noIdentity` (no `email` key). -/
theorem getUserInfo_email_witness :
    getUserInfo bobRecord [str "email"] = .ok (obj [("email", str "bob@x.com")]) ∧
    getUserInfo facebookUser [str "email"] = .ok (obj [("email", str "fb@x.com")]) ∧
    getUserInfo noIdentity [str "email"] = .ok (obj []) :=
  ⟨((getUserInfo_email bobRecord
      (obj [("local", obj [("username", str "bob"), ("email", str "bob@x.com")])])
      (obj [("username", str "bob"), ("email", str "bob@x.com")]) undefined
      rfl rfl rfl).1 (str "bob@x.com") rfl rfl rfl).1,
    (((getUserInfo_email facebookUser
      (obj [("facebook", obj [("displayName", str "FB Bob"), ("username", str "fbbob"),
        ("emails", arr [obj [("value", str "fb@x.com")]])])])
      undefined
      (obj [("displayName", str "FB Bob"), ("username", str "fbbob"),
        ("emails", arr [obj [("value", str "fb@x.com")]])])
      rfl rfl rfl).2 (by simp [truthy])).1 (arr [obj [("value", str "fb@x.com")]])
      (obj [("value", str "fb@x.com")]) (str "fb@x.com") rfl rfl rfl rfl rfl rfl rfl).1,
    (((getUserInfo_email noIdentity (obj []) undefined undefined rfl rfl rfl).2
      (by simp [truthy])).2 (by simp [truthy])).1⟩

theorem lookup_setProp_isSome (k k2 : String) (v : JSVal) (l : List (String × JSVal))
    (h : (lookup k2 (setProp k v l)).isSome = true) :
    k2 = k ∨ (lookup k2 l).isSome = true := by
  by_cases hk : k = k2
  · exact Or.inl hk.symm
  · rw [lookup_setProp_ne k k2 v l hk] at h
    exact Or.inr h

/-- A guarded statement that runs only adds its own key, and only when the key is
requested. -/
theorem whenRequested_keys (fields : List JSVal) (k k2 : String)
    (step : List (String × JSVal) → Except JSError (List (String × JSVal)))
    (info info' : List (String × JSVal))
    (hframe : ∀ i i', step i = .ok i' → i' = i ∨ ∃ v, i' = setProp k v i)
    (h : whenRequested fields k step info = .ok info')
    (hk : (lookup k2 info').isSome = true) :
    (k2 = k ∧ str k ∈ fields) ∨ (lookup k2 info).isSome = true := by
  unfold whenRequested at h
  split at h
  · rename_i hreq
    have hreq' : str k ∈ fields := (indexOf_ne_iff _ _).1 (by simpa using hreq)
    rcases hframe _ _ h with rfl | ⟨v, rfl⟩
    · exact Or.inr hk
    · rcases lookup_setProp_isSome k k2 v info hk with h1 | h1
      · exact Or.inl ⟨h1, hreq'⟩
      · exact Or.inr h1
  · cases h
    exact Or.inr hk

/-- The `name` block does not throw when the `auth` block is present and, in case
an identity is present, so is the `profile` block. -/
theorem nameStep_total (user auth : JSVal) (i : List (String × JSVal))
    (ha : user.get "auth" = .ok auth) (han : auth.nullish = false)
    (hprofile : ∀ loc fb, auth.get "local" = .ok loc → auth.get "facebook" = .ok fb →
      (loc.truthy = true ∨ fb.truthy = true) →
      ∃ profile, user.get "profile" = .ok profile ∧ profile.nullish = false) :
    ∃ i', nameStep user i = .ok i' := by
  obtain ⟨loc, hl⟩ := get_ok_of_not_nullish auth "local" han
  obtain ⟨fb, hf⟩ := get_ok_of_not_nullish auth "facebook" han
  cases hlt : loc.truthy with
  | true =>
    obtain ⟨profile, hp, hpn⟩ := hprofile loc fb hl hf (Or.inl hlt)
    obtain ⟨pname, hn⟩ := get_ok_of_not_nullish profile "name" hpn
    obtain ⟨un, hun⟩ := get_ok_of_not_nullish loc "username" (not_nullish_of_truthy loc hlt)
    rw [nameStep_local user auth loc profile pname i ha hl hlt hp hn, hun]
    cases hpt : pname.truthy <;> simp [orElse, hpt, Except.map]
  | false =>
    cases hft : fb.truthy with
    | false => exact ⟨i, nameStep_none user auth loc fb i ha hl hlt hf hft⟩
    | true =>
      obtain ⟨profile, hp, hpn⟩ := hprofile loc fb hl hf (Or.inr hft)
      obtain ⟨pname, hn⟩ := get_ok_of_not_nullish profile "name" hpn
      obtain ⟨dn, hdn⟩ :=
        get_ok_of_not_nullish fb "displayName" (not_nullish_of_truthy fb hft)
      obtain ⟨un, hun⟩ := get_ok_of_not_nullish fb "username" (not_nullish_of_truthy fb hft)
      rw [nameStep_facebook user auth loc fb profile pname i ha hl hlt hf hft hp hn, hdn, hun]
      cases hpt : pname.truthy <;> cases hdt : dn.truthy <;>
        simp [orElse, hpt, hdt, Except.map, bind, Except.bind]

/-- The `email` block does not throw when the `auth` block is present. -/
theorem emailStep_total (user auth : JSVal) (i : List (String × JSVal))
    (ha : user.get "auth" = .ok auth) (han : auth.nullish = false) :
    ∃ i', emailStep user i = .ok i' := by
  obtain ⟨loc, hl⟩ := get_ok_of_not_nullish auth "local" han
  obtain ⟨fb, hf⟩ := get_ok_of_not_nullish auth "facebook" han
  obtain ⟨rl, hrl, -, -⟩ := localEmail_spec user auth loc ha hl
  obtain ⟨rf, hrf, -, -⟩ := facebookEmail_spec user auth fb ha hf
  unfold emailStep
  cases hlt : rl.truthy <;> cases hft : rf.truthy <;>
    simp [hrl, hrf, hlt, hft, bind, Except.bind, pure, Except.pure]

/-- C9, as the claim states it, fails: `getUserInfo` throws on `noNotifications`
(no `preferences.emailNotifications` block) when `canSend` is requested and on
`noProfile` (no `profile` block) when `name` is requested. -/
theorem getUserInfo_throws_on_absent_block :
    noNotifications.get "preferences" = .ok (obj []) ∧
    getUserInfo noNotifications [str "canSend"] = .error .typeError ∧
    noProfile.get "profile" = .ok undefined ∧
    getUserInfo noProfile [str "name"] = .error .typeError :=
  ⟨rfl, rfl, rfl, rfl⟩

/-- C9 (amended): `getUserInfo` returns an object, each of whose keys is a
requested field, whenever the blocks it reads without a guard are present: `auth`
when `name` or `email` is requested, `profile` when `name` is requested and an
identity is present, `preferences.emailNotifications` when `canSend` is requested,
and the record itself when `_id` is requested.  Absent identities are no
obstacle. -/
theorem getUserInfo_returns (user : JSVal) (fields : List JSVal)
    (hauth : str "name" ∈ fields ∨ str "email" ∈ fields →
      ∃ auth, user.get "auth" = .ok auth ∧ auth.nullish = false)
    (hprofile : str "name" ∈ fields →
      ∀ auth loc fb, user.get "auth" = .ok auth → auth.get "local" = .ok loc →
        auth.get "facebook" = .ok fb → (loc.truthy = true ∨ fb.truthy = true) →
        ∃ profile, user.get "profile" = .ok profile ∧ profile.nullish = false)
    (hid : str "_id" ∈ fields → user.nullish = false)
    (hprefs : str "canSend" ∈ fields →
      ∃ prefs en, user.get "preferences" = .ok prefs ∧
        prefs.get "emailNotifications" = .ok en ∧ en.nullish = false) :
    ∃ props, getUserInfo user fields = .ok (obj props) ∧
      ∀ k, (lookup k props).isSome = true → str k ∈ fields := by
  have h1 : ∃ i1, whenRequested fields "name" (nameStep user) [] = .ok i1 := by
    by_cases hreq : str "name" ∈ fields
    · rw [whenRequested_of_requested _ _ _ _ ((indexOf_ne_iff _ _).2 hreq)]
      obtain ⟨auth, ha, han⟩ := hauth (Or.inl hreq)
      exact nameStep_total user auth [] ha han (fun loc fb hl hf => hprofile hreq auth loc fb ha hl hf)
    · have hno : indexOf fields "name" = -1 := by
        by_contra hc
        exact hreq ((indexOf_ne_iff _ _).1 hc)
      exact ⟨[], whenRequested_of_not_requested _ _ _ _ hno⟩
  obtain ⟨i1, h1⟩ := h1
  have h2 : ∃ i2, whenRequested fields "email" (emailStep user) i1 = .ok i2 := by
    by_cases hreq : str "email" ∈ fields
    · rw [whenRequested_of_requested _ _ _ _ ((indexOf_ne_iff _ _).2 hreq)]
      obtain ⟨auth, ha, han⟩ := hauth (Or.inr hreq)
      exact emailStep_total user auth i1 ha han
    · have hno : indexOf fields "email" = -1 := by
        by_contra hc
        exact hreq ((indexOf_ne_iff _ _).1 hc)
      exact ⟨i1, whenRequested_of_not_requested _ _ _ _ hno⟩
  obtain ⟨i2, h2⟩ := h2
  have h3 : ∃ i3, whenRequested fields "_id" (idStep user) i2 = .ok i3 := by
    by_cases hreq : str "_id" ∈ fields
    · rw [whenRequested_of_requested _ _ _ _ ((indexOf_ne_iff _ _).2 hreq)]
      obtain ⟨id, hi⟩ := get_ok_of_not_nullish user "_id" (hid hreq)
      exact ⟨_, (idStep_ok_iff _ _ _).2 ⟨id, hi, rfl⟩⟩
    · have hno : indexOf fields "_id" = -1 := by
        by_contra hc
        exact hreq ((indexOf_ne_iff _ _).1 hc)
      exact ⟨i2, whenRequested_of_not_requested _ _ _ _ hno⟩
  obtain ⟨i3, h3⟩ := h3
  have h4 : ∃ i4, whenRequested fields "canSend" (canSendStep user) i3 = .ok i4 := by
    by_cases hreq : str "canSend" ∈ fields
    · rw [whenRequested_of_requested _ _ _ _ ((indexOf_ne_iff _ _).2 hreq)]
      obtain ⟨prefs, en, hp, he, hen⟩ := hprefs hreq
      obtain ⟨unsub, hu⟩ := get_ok_of_not_nullish en "unsubscribeFromAll" hen
      exact ⟨_, (canSendStep_ok_iff _ _ _).2 ⟨prefs, hp, en, he, unsub, hu, rfl⟩⟩
    · have hno : indexOf fields "canSend" = -1 := by
        by_contra hc
        exact hreq ((indexOf_ne_iff _ _).1 hc)
      exact ⟨i3, whenRequested_of_not_requested _ _ _ _ hno⟩
  obtain ⟨i4, h4⟩ := h4
  refine ⟨i4, (getUserInfo_ok_iff _ _ _).2 ⟨i1, i2, i3, i4, h1, h2, h3, h4, rfl⟩, ?_⟩
  intro k hk
  rcases whenRequested_keys _ _ k _ _ _ (canSendStep_frame user) h4 hk with ⟨rfl, h⟩ | hk
  · exact h
  rcases whenRequested_keys _ _ k _ _ _ (idStep_frame user) h3 hk with ⟨rfl, h⟩ | hk
  · exact h
  rcases whenRequested_keys _ _ k _ _ _ (emailStep_frame' user) h2 hk with ⟨rfl, h⟩ | hk
  · exact h
  rcases whenRequested_keys _ _ k _ _ _ (nameStep_frame' user) h1 hk with ⟨rfl, h⟩ | hk
  · exact h
  simp [lookup] at hk

/-- C9 (amended) at `noIdentity`, whose `auth` block holds no identity, for the
four fields of `txnEmail`. -/
theorem getUserInfo_returns_witness :
    ∃ props, getUserInfo noIdentity userFields = .ok (obj props) ∧
      ∀ k, (lookup k props).isSome = true → str k ∈ userFields :=
  getUserInfo_returns noIdentity userFields
    (fun _ => ⟨obj [], rfl, rfl⟩)
    (fun _ _ _ _ _ _ _ _ => ⟨obj [("name", str "Ghost")], rfl, rfl⟩)
    (fun _ => rfl)
    (fun _ => ⟨obj [("emailNotifications", obj [])], obj [], rfl, rfl, rfl⟩)

/-- C10, as the claim states it, fails: `noAuth` has no `auth` block, hence neither
a local nor a facebook identity, and `getUserInfo` with `name` requested throws on
it instead of returning an object without `name`. -/
theorem getUserInfo_name_throws_without_auth :
    noAuth.get "auth" = .ok undefined ∧
    getUserInfo noAuth [str "name"] = .error .typeError ∧
    getUserInfo noAuth userFields = .error .typeError :=
  ⟨rfl, rfl, rfl⟩

/-- C10 (amended): for a record whose `auth` block is present and holds neither a
local nor a facebook identity, `getUserInfo` with `name` requested returns an
object without a `name` key, whatever the profile holds. -/
theorem getUserInfo_name_omitted (user auth loc fb : JSVal)
    (ha : user.get "auth" = .ok auth) (hl : auth.get "local" = .ok loc)
    (hlt : loc.truthy = false)
    (hf : auth.get "facebook" = .ok fb) (hft : fb.truthy = false) :
    getUserInfo user [str "name"] = .ok (obj []) ∧
    ∀ fields info, getUserInfo user fields = .ok info → info.hasKey "name" = false := by
  have hstep : ∀ i, nameStep user i = .ok i := fun i =>
    nameStep_none user auth loc fb i ha hl hlt hf hft
  refine ⟨getUserInfo_only_name user _ (hstep []), ?_⟩
  intro fields info h
  obtain ⟨i1, i2, i3, i4, h1, -, -, -, rfl, hname, -, -⟩ := getUserInfo_chain _ _ _ h
  have hi1 : i1 = [] := by
    unfold whenRequested at h1
    split at h1
    · rw [hstep] at h1
      cases h1
      rfl
    · cases h1
      rfl
  subst hi1
  simp [hasKey, hname, lookup]

/-- C10 (amended) at `noIdentity`, whose profile name is `Ghost`: no `name` key. -/
theorem getUserInfo_name_omitted_witness :
    getUserInfo noIdentity [str "name"] = .ok (obj []) ∧
    ∀ fields info, getUserInfo noIdentity fields = .ok info →
      info.hasKey "name" = false :=
  getUserInfo_name_omitted noIdentity (obj []) undefined undefined rfl rfl rfl rfl rfl

/-! ### Structure of `txnEmail` -/

/-- A call of `txnEmail` completes exactly when the resolver and the merge do, and
it calls `request` once, with the job body, when `IS_PROD` is truthy and the
resolved list is non-empty, and not at all otherwise. -/
theorem txnEmail_ok_iff (env : Env)
    (mailingInfoArray emailType vars personalVariables : JSVal) (calls : List JSVal) :
    txnEmail env mailingInfoArray emailType vars personalVariables = .ok calls ↔
      ∃ rs merged, resolveRecipients mailingInfoArray emailType = .ok rs ∧
        mergePersonalVariables env rs personalVariables = .ok merged ∧
        calls = if env.IS_PROD.truthy = true ∧ 0 < rs.length then
            [jobBody emailType rs (globalVariables env vars) merged]
          else [] := by
  unfold txnEmail
  simp only [bind_eq_ok]
  constructor
  · rintro ⟨rs, hrs, merged, hm, h⟩
    refine ⟨rs, merged, hrs, hm, ?_⟩
    cases hp : env.IS_PROD.truthy <;> cases rs <;>
      simp_all [pure, Except.pure]
  · rintro ⟨rs, merged, hrs, hm, h⟩
    refine ⟨rs, hrs, merged, hm, ?_⟩
    cases hp : env.IS_PROD.truthy <;> cases rs <;>
      simp_all [pure, Except.pure]

/-- Every resolved recipient can be read from. -/
theorem resolveRecipients_not_nullish (mailingInfoArray emailType : JSVal)
    (rs : List JSVal) (h : resolveRecipients mailingInfoArray emailType = .ok rs) :
    ∀ r ∈ rs, r.nullish = false := by
  obtain ⟨mapped, hmap⟩ := mapped_of_resolveRecipients _ _ _ h
  obtain ⟨rs', hrs', -, hmem⟩ := resolveRecipients_of_mapped _ emailType _ hmap
  rw [h] at hrs'
  cases hrs'
  intro r hr
  obtain ⟨x, -, hx⟩ := mapE_mem_right _ _ _ hmap r ((hmem r).1 hr).1
  exact mapInfo_not_nullish x r hx

theorem mapE_total {α β : Type} (f : α → Except JSError β) (xs : List α)
    (h : ∀ x ∈ xs, ∃ y, f x = .ok y) : ∃ ys, mapE f xs = .ok ys := by
  induction xs with
  | nil => exact ⟨[], rfl⟩
  | cons x xs ih =>
    obtain ⟨y, hy⟩ := h x (List.mem_cons_self _ _)
    obtain ⟨ys, hys⟩ := ih (fun z hz => h z (List.mem_cons_of_mem _ hz))
    exact ⟨y :: ys, (mapE_ok_cons f x xs _).2 ⟨y, ys, hy, hys, rfl⟩⟩

theorem mapE_error_of_mem {α β : Type} (f : α → Except JSError β) (xs : List α) (x : α)
    (hx : x ∈ xs) (h : f x = .error .typeError) : mapE f xs = .error .typeError := by
  cases hm : mapE f xs with
  | error e => cases e; rfl
  | ok ys =>
    obtain ⟨y, -, hy⟩ := mapE_mem_left f xs ys hm x hx
    rw [h] at hy
    cases hy

/-- The entry synthesized for a recipient that can be read from. -/
theorem synthEntry_ok_iff (env : Env) (r e : JSVal) :
    synthEntry env r = .ok e ↔
      ∃ email name id, r.get "email" = .ok email ∧ r.get "name" = .ok name ∧
        r.get "_id" = .ok id ∧
        e = obj [("rcpt", email), ("vars", arr (recipientVars env name id email))] := by
  unfold synthEntry
  simp only [bind_eq_ok, pure_eq_ok]
  constructor
  · rintro ⟨email, he, name, hn, id, hi, h⟩
    exact ⟨email, name, id, he, hn, hi, h.symm⟩
  · rintro ⟨email, name, id, he, hn, hi, h⟩
    exact ⟨email, he, name, hn, id, hi, h.symm⟩

theorem synthEntry_total (env : Env) (r : JSVal) (h : r.nullish = false) :
    ∃ e, synthEntry env r = .ok e := by
  obtain ⟨email, he⟩ := get_ok_of_not_nullish r "email" h
  obtain ⟨name, hn⟩ := get_ok_of_not_nullish r "name" h
  obtain ⟨id, hi⟩ := get_ok_of_not_nullish r "_id" h
  exact ⟨_, (synthEntry_ok_iff env r _).2 ⟨email, name, id, he, hn, hi, rfl⟩⟩

/-- The first branch of the `if` of line 83 is taken when `personalVariables` is
falsy or its `length` is `0`; the merge is then the `map` of lines 84-101. -/
theorem mergePersonalVariables_none_supplied (env : Env) (rs : List JSVal)
    (personalVariables : JSVal)
    (h : personalVariables.truthy = false ∨ personalVariables.get "length" = .ok (num 0)) :
    mergePersonalVariables env rs personalVariables
      = (mapE (synthEntry env) rs >>= fun entries => pure (arr entries)) := by
  unfold mergePersonalVariables
  cases ht : personalVariables.truthy with
  | false => simp [bind, Except.bind, pure, Except.pure]
  | true =>
    rcases h with h | h
    · rw [ht] at h
      cases h
    · simp [h, bind, Except.bind, pure, Except.pure, strictEqNum]

/-- The second branch of the `if` of line 83 is taken otherwise; the merge then
runs the two `forEach` loops of lines 105-126, and throws when `personalVariables`
is not an array. -/
theorem mergePersonalVariables_supplied (env : Env) (rs : List JSVal)
    (personalVariables : JSVal)
    (h : ¬ (personalVariables.truthy = false ∨
      personalVariables.get "length" = .ok (num 0))) :
    mergePersonalVariables env rs personalVariables
      = (buildLookup { proto := none, own := [] } rs >>= fun t =>
          match personalVariables with
          | arr entries => mapE (appendVars env t) entries >>= fun merged => pure (arr merged)
          | _ => .error .typeError) := by
  unfold mergePersonalVariables
  have ht : personalVariables.truthy = true := by
    cases hb : personalVariables.truthy with
    | true => rfl
    | false => exact absurd (Or.inl hb) h
  obtain ⟨len, hlen⟩ := get_ok_of_not_nullish personalVariables "length"
    (not_nullish_of_truthy _ ht)
  have hz : len.strictEqNum 0 = false := by
    cases hb : len.strictEqNum 0 with
    | false => rfl
    | true =>
      exfalso
      apply h
      right
      rw [hlen]
      cases len <;> simp_all [strictEqNum]
  simp only [ht, hlen, hz, bind, Except.bind, pure, Except.pure, Bool.not_true,
    Bool.false_eq_true, if_false]

/-! ### Claims on the personalization merge -/

/-- C11: called with no `personalVariables` (`undefined`, `null` or an empty
list), `txnEmail` builds one entry per resolved recipient, in the same order, and
the entry of a recipient `r` is `{rcpt: r.email, vars: [{name: 'RECIPIENT_NAME',
content: r.name}, {name: 'RECIPIENT_UNSUB_URL', content: '/unsubscribe?code=' +
encrypt(JSON.stringify({_id: r._id, email: r.email}))}]}`; that list is the
`personalVariables` of the job. -/
theorem txnEmail_synthesizes_personalVariables (env : Env)
    (mailingInfoArray emailType vars personalVariables : JSVal) (rs : List JSVal)
    (hpv : personalVariables = undefined ∨ personalVariables = null ∨
      personalVariables = arr [])
    (hrs : resolveRecipients mailingInfoArray emailType = .ok rs) :
    ∃ entries,
      mergePersonalVariables env rs personalVariables = .ok (arr entries) ∧
      txnEmail env mailingInfoArray emailType vars personalVariables
        = .ok (if env.IS_PROD.truthy = true ∧ 0 < rs.length then
            [jobBody emailType rs (globalVariables env vars) (arr entries)]
          else []) ∧
      entries.length = rs.length ∧
      List.Forall₂ (fun r e => ∃ email name id,
        r.get "email" = .ok email ∧ r.get "name" = .ok name ∧ r.get "_id" = .ok id ∧
        e = obj [("rcpt", email),
                 ("vars", arr [
                    obj [("name", str "RECIPIENT_NAME"), ("content", name)],
                    obj [("name", str "RECIPIENT_UNSUB_URL"),
                         ("content", str ("/unsubscribe?code=" ++
                            env.encrypt (env.jsonStringify
                              (obj [("_id", id), ("email", email)]))))]])])
        rs entries := by
  have hmode : personalVariables.truthy = false ∨
      personalVariables.get "length" = .ok (num 0) := by
    rcases hpv with rfl | rfl | rfl
    · exact Or.inl rfl
    · exact Or.inl rfl
    · exact Or.inr rfl
  have hnn := resolveRecipients_not_nullish _ _ _ hrs
  obtain ⟨entries, hentries⟩ := mapE_total (synthEntry env) rs
    (fun r hr => synthEntry_total env r (hnn r hr))
  have hmerge : mergePersonalVariables env rs personalVariables = .ok (arr entries) := by
    rw [mergePersonalVariables_none_supplied env rs _ hmode, hentries]
    rfl
  have hall := (mapE_ok_forall₂ _ _ _).1 hentries
  refine ⟨entries, hmerge, ?_, hall.length_eq.symm, ?_⟩
  · exact (txnEmail_ok_iff _ _ _ _ _ _).2 ⟨rs, _, hrs, hmerge, rfl⟩
  · refine hall.imp ?_
    intro r e he
    obtain ⟨email, name, id, h1, h2, h3, h4⟩ := (synthEntry_ok_iff env r e).1 he
    exact ⟨email, name, id, h1, h2, h3, h4⟩

/-- C11 at `txnEmail ([bobRecord], 'welcome')` in production, with no
`personalVariables`. -/
theorem txnEmail_synthesizes_personalVariables_witness :
    ∃ entries,
      mergePersonalVariables sampleEnv [bobInfo true] undefined = .ok (arr entries) ∧
      txnEmail sampleEnv (arr [bobRecord]) (str "welcome") undefined undefined
        = .ok (if sampleEnv.IS_PROD.truthy = true ∧ 0 < [bobInfo true].length then
            [jobBody (str "welcome") [bobInfo true] (globalVariables sampleEnv undefined)
              (arr entries)]
          else []) ∧
      entries.length = [bobInfo true].length ∧
      List.Forall₂ (fun r e => ∃ email name id,
        r.get "email" = .ok email ∧ r.get "name" = .ok name ∧ r.get "_id" = .ok id ∧
        e = obj [("rcpt", email),
                 ("vars", arr [
                    obj [("name", str "RECIPIENT_NAME"), ("content", name)],
                    obj [("name", str "RECIPIENT_UNSUB_URL"),
                         ("content", str ("/unsubscribe?code=" ++
                            sampleEnv.encrypt (sampleEnv.jsonStringify
                              (obj [("_id", id), ("email", email)]))))]])])
        [bobInfo true] entries :=
  txnEmail_synthesizes_personalVariables sampleEnv (arr [bobRecord]) (str "welcome")
    undefined undefined [bobInfo true] (Or.inl rfl) rfl

/-! ### The lookup object of lines 103-110 -/

theorem toKey_str (s : String) : toKey (str s) = .ok s := by
  simp [toKey]

theorem write_own_proto (t : LookupObj) (k : String) (p : List (String × JSVal))
    (h : lookup "__proto__" t.own = none) : lookup "__proto__" (t.write k p).own = none := by
  unfold LookupObj.write
  by_cases hk : k = "__proto__"
  · simp [hk, h]
  · simp only [hk, if_false]
    rw [lookup_setProp_ne k "__proto__" _ _ hk]
    exact h

theorem write_own_ne (t : LookupObj) (k s : String) (p : List (String × JSVal))
    (hne : k ≠ s) : lookup s (t.write k p).own = lookup s t.own := by
  unfold LookupObj.write
  by_cases hk : k = "__proto__"
  · simp [hk]
  · simp only [hk, if_false]
    exact lookup_setProp_ne k s _ _ hne

theorem write_proto_ne (t : LookupObj) (k : String) (p : List (String × JSVal))
    (hne : k ≠ "__proto__") : (t.write k p).proto = t.proto := by
  simp [LookupObj.write, hne]

/-- A key is stored when it is an own property or, for `__proto__`, the installed
prototype; reading a stored key gives the stored object. -/
theorem read_of_stored (t : LookupObj) (s : String) (p : List (String × JSVal))
    (hno : lookup "__proto__" t.own = none)
    (h : (s = "__proto__" ∧ t.proto = some p) ∨
      (s ≠ "__proto__" ∧ lookup s t.own = some (obj p))) :
    t.read s = obj p := by
  unfold LookupObj.read
  rcases h with ⟨rfl, hp⟩ | ⟨-, hs⟩
  · simp [hno, hp]
  · simp [hs]

theorem write_stored (t : LookupObj) (s : String) (p : List (String × JSVal)) :
    (s = "__proto__" ∧ (t.write s p).proto = some p) ∨
      (s ≠ "__proto__" ∧ lookup s (t.write s p).own = some (obj p)) := by
  unfold LookupObj.write
  by_cases hk : s = "__proto__"
  · exact Or.inl ⟨hk, by simp [hk]⟩
  · refine Or.inr ⟨hk, ?_⟩
    simp only [hk, if_false]
    exact lookup_setProp_self _ _ _

/-- One round of the `forEach` of lines 105-110. -/
theorem buildLookup_cons_ok (t t' : LookupObj) (r : JSVal) (rest : List JSVal) :
    buildLookup t (r :: rest) = .ok t' ↔
      ∃ email key name id, r.get "email" = .ok email ∧ toKey email = .ok key ∧
        r.get "name" = .ok name ∧ r.get "_id" = .ok id ∧
        buildLookup (t.write key [("name", name), ("_id", id)]) rest = .ok t' := by
  rw [buildLookup]
  simp only [bind_eq_ok]
  constructor
  · rintro ⟨email, he, key, hk, name, hn, id, hi, h⟩
    exact ⟨email, key, name, id, he, hk, hn, hi, h⟩
  · rintro ⟨email, key, name, id, he, hk, hn, hi, h⟩
    exact ⟨email, he, key, hk, name, hn, id, hi, h⟩

theorem buildLookup_append (t t' : LookupObj) (pre post : List JSVal)
    (h : buildLookup t (pre ++ post) = .ok t') :
    ∃ t1, buildLookup t pre = .ok t1 ∧ buildLookup t1 post = .ok t' := by
  induction pre generalizing t with
  | nil => exact ⟨t, rfl, h⟩
  | cons r pre ih =>
    rw [List.cons_append] at h
    obtain ⟨email, key, name, id, he, hk, hn, hi, h⟩ := (buildLookup_cons_ok _ _ _ _).1 h
    obtain ⟨t1, h1, h2⟩ := ih _ h
    exact ⟨t1, (buildLookup_cons_ok _ _ _ _).2 ⟨email, key, name, id, he, hk, hn, hi, h1⟩, h2⟩

/-- The loop never creates an own property called `__proto__`. -/
theorem buildLookup_own_proto (t t' : LookupObj) (rs : List JSVal)
    (h : buildLookup t rs = .ok t') (hno : lookup "__proto__" t.own = none) :
    lookup "__proto__" t'.own = none := by
  induction rs generalizing t with
  | nil =>
    simp [buildLookup] at h
    subst h
    exact hno
  | cons r rest ih =>
    obtain ⟨email, key, name, id, -, -, -, -, h⟩ := (buildLookup_cons_ok _ _ _ _).1 h
    exact ih _ h (write_own_proto _ _ _ hno)

/-- Recipients whose email is not the key `s` leave the entry of `s` alone. -/
theorem buildLookup_frame (t t' : LookupObj) (rs : List JSVal) (s : String)
    (h : buildLookup t rs = .ok t')
    (hne : ∀ r ∈ rs, ∀ email key, r.get "email" = .ok email → toKey email = .ok key →
      key ≠ s) :
    lookup s t'.own = lookup s t.own ∧ (s = "__proto__" → t'.proto = t.proto) := by
  induction rs generalizing t with
  | nil =>
    simp [buildLookup] at h
    subst h
    exact ⟨rfl, fun _ => rfl⟩
  | cons r rest ih =>
    obtain ⟨email, key, name, id, he, hk, -, -, h⟩ := (buildLookup_cons_ok _ _ _ _).1 h
    have hks : key ≠ s := hne r (List.mem_cons_self _ _) email key he hk
    obtain ⟨h1, h2⟩ := ih _ h (fun r' hr' => hne r' (List.mem_cons_of_mem _ hr'))
    refine ⟨?_, ?_⟩
    · rw [h1, write_own_ne _ _ _ _ hks]
    · intro hs
      rw [h2 hs, write_proto_ne]
      rw [← hs]
      exact hks

/-- After the loop, the key of an email holds the name and identifier of the last
recipient with that key. -/
theorem buildLookup_last (t t' : LookupObj) (pre post : List JSVal)
    (r email name id : JSVal) (s : String)
    (h : buildLookup t (pre ++ r :: post) = .ok t')
    (hno : lookup "__proto__" t.own = none)
    (he : r.get "email" = .ok email) (hk : toKey email = .ok s)
    (hn : r.get "name" = .ok name) (hi : r.get "_id" = .ok id)
    (hpost : ∀ r' ∈ post, ∀ email' key, r'.get "email" = .ok email' →
      toKey email' = .ok key → key ≠ s) :
    t'.read s = obj [("name", name), ("_id", id)] := by
  obtain ⟨t1, -, h2⟩ := buildLookup_append _ _ _ _ h
  obtain ⟨email', key', name', id', he', hk', hn', hi', h3⟩ :=
    (buildLookup_cons_ok _ _ _ _).1 h2
  rw [he] at he'; cases he'
  rw [hk] at hk'; cases hk'
  rw [hn] at hn'; cases hn'
  rw [hi] at hi'; cases hi'
  have hno' := buildLookup_own_proto _ _ _ h hno
  obtain ⟨hown, hproto⟩ := buildLookup_frame _ _ _ s h3 hpost
  apply read_of_stored _ _ _ hno'
  rcases write_stored t1 s [("name", name), ("_id", id)] with ⟨hs, hp⟩ | ⟨hs, ho⟩
  · exact Or.inl ⟨hs, by rw [hproto hs, hp]⟩
  · exact Or.inr ⟨hs, by rw [hown, ho]⟩

/-- The loop does not throw on recipients whose email is a string. -/
theorem buildLookup_total (t : LookupObj) (rs : List JSVal)
    (h : ∀ r ∈ rs, ∃ s, r.get "email" = .ok (str s)) :
    ∃ t', buildLookup t rs = .ok t' := by
  induction rs generalizing t with
  | nil => exact ⟨t, rfl⟩
  | cons r rest ih =>
    obtain ⟨s, hs⟩ := h r (List.mem_cons_self _ _)
    have hnn := not_nullish_of_get_ok _ _ _ hs
    obtain ⟨name, hn⟩ := get_ok_of_not_nullish r "name" hnn
    obtain ⟨id, hi⟩ := get_ok_of_not_nullish r "_id" hnn
    obtain ⟨t', ht'⟩ := ih (t.write s [("name", name), ("_id", id)])
      (fun r' hr' => h r' (List.mem_cons_of_mem _ hr'))
    exact ⟨t', (buildLookup_cons_ok _ _ _ _).2 ⟨str s, s, name, id, hs, toKey_str s, hn, hi, ht'⟩⟩

/-! ### The append of lines 112-126 -/

theorem lookup_of_get_arr (props : List (String × JSVal)) (k : String) (xs : List JSVal)
    (h : (obj props).get k = .ok (arr xs)) : lookup k props = some (arr xs) := by
  rw [get_obj] at h
  cases hl : lookup k props with
  | none => rw [hl] at h; cases h
  | some v =>
    rw [hl] at h
    simp only [Option.getD_some] at h
    cases h
    rfl

/-- What the `forEach` callback of lines 112-126 does to an entry: it needs an
object with an array `vars`, looks the key of `rcpt` up, and pushes the two items
behind the existing ones. -/
theorem appendVars_ok_iff (env : Env) (t : LookupObj) (e m : JSVal) :
    appendVars env t e = .ok m ↔
      ∃ props xs rcpt key name id,
        e = obj props ∧ lookup "vars" props = some (arr xs) ∧
        e.get "rcpt" = .ok rcpt ∧ toKey rcpt = .ok key ∧
        (t.read key).get "name" = .ok name ∧ (t.read key).get "_id" = .ok id ∧
        m = obj (setProp "vars" (arr (xs ++ recipientVars env name id rcpt)) props) := by
  unfold appendVars
  simp only [bind_eq_ok]
  constructor
  · rintro ⟨vars, hv, push, -, rcpt, hr, key, hk, name, hn, id, hi, h⟩
    cases vars with
    | arr xs =>
      cases e with
      | obj props =>
        simp only [pure_eq_ok] at h
        exact ⟨props, xs, rcpt, key, name, id, rfl, lookup_of_get_arr _ _ _ hv, hr, hk, hn,
          hi, h.symm⟩
      | _ => simp [JSVal.get] at hv
    | _ => cases h
  · rintro ⟨props, xs, rcpt, key, name, id, rfl, hv, hr, hk, hn, hi, rfl⟩
    refine ⟨arr xs, by simp [get_obj, hv], undefined, rfl, rcpt, hr, key, hk, name, hn, id,
      hi, rfl⟩

/-- An entry whose `rcpt` has a key the lookup object does not hold makes the
callback throw. -/
theorem appendVars_error (env : Env) (t : LookupObj) (e rcpt : JSVal) (key : String)
    (hr : e.get "rcpt" = .ok rcpt) (hk : toKey rcpt = .ok key)
    (hread : t.read key = undefined) : appendVars env t e = .error .typeError := by
  cases h : appendVars env t e with
  | error err => cases err; rfl
  | ok m =>
    obtain ⟨props, xs, rcpt', key', name, id, -, -, hr', hk', hn, -, -⟩ :=
      (appendVars_ok_iff env t e m).1 h
    rw [hr] at hr'; cases hr'
    rw [hk] at hk'; cases hk'
    rw [hread] at hn
    cases hn

theorem mapE_forall₂_mem {α β : Type} (f : α → Except JSError β) (xs : List α)
    (ys : List β) (h : mapE f xs = .ok ys) :
    List.Forall₂ (fun x y => x ∈ xs ∧ f x = .ok y) xs ys := by
  induction xs generalizing ys with
  | nil =>
    simp [mapE] at h
    subst h
    exact List.Forall₂.nil
  | cons x xs ih =>
    obtain ⟨y, ys', hx, hxs, rfl⟩ := (mapE_ok_cons f x xs ys).1 h
    refine List.Forall₂.cons ⟨List.mem_cons_self _ _, hx⟩ ?_
    exact (ih ys' hxs).imp (fun a b hab => ⟨List.mem_cons_of_mem _ hab.1, hab.2⟩)

/-- A list with an element satisfying `P` splits at the last such element. -/
theorem exists_last_split {α : Type} (P : α → Prop) (l : List α)
    (h : ∃ x ∈ l, P x) :
    ∃ pre x post, l = pre ++ x :: post ∧ P x ∧ ∀ y ∈ post, ¬ P y := by
  induction l with
  | nil =>
    obtain ⟨x, hx, -⟩ := h
    simp at hx
  | cons a l ih =>
    by_cases htail : ∃ x ∈ l, P x
    · obtain ⟨pre, x, post, hl, hx, hpost⟩ := ih htail
      exact ⟨a :: pre, x, post, by rw [hl]; rfl, hx, hpost⟩
    · obtain ⟨x, hx, hPx⟩ := h
      rcases List.mem_cons.1 hx with rfl | hmem
      · exact ⟨[], x, l, rfl, hPx, fun y hy hPy => htail ⟨y, hy, hPy⟩⟩
      · exact absurd ⟨x, hmem, hPx⟩ htail

/-- A non-empty array of entries takes the second branch of line 83. -/
theorem supplied_of_ne_nil (entries : List JSVal) (hne : entries ≠ []) :
    ¬ ((arr entries).truthy = false ∨ (arr entries).get "length" = .ok (num 0)) := by
  rintro (h | h)
  · cases h
  · simp only [JSVal.get, if_true] at h
    apply hne
    cases entries with
    | nil => rfl
    | cons a l =>
      exfalso
      have h1 : (num ((a :: l).length : Int)) = num 0 := by
        injection h
      injection h1 with h2
      simp at h2
      omega

/-- The merge of a supplied array: the lookup object is built, then every entry is
extended. -/
theorem mergePersonalVariables_arr_ok_iff (env : Env) (rs entries : List JSVal)
    (hne : entries ≠ []) (merged : JSVal) :
    mergePersonalVariables env rs (arr entries) = .ok merged ↔
      ∃ t ms, buildLookup { proto := none, own := [] } rs = .ok t ∧
        mapE (appendVars env t) entries = .ok ms ∧ merged = arr ms := by
  rw [mergePersonalVariables_supplied env rs _ (supplied_of_ne_nil entries hne)]
  simp only [bind_eq_ok, pure_eq_ok]
  constructor
  · rintro ⟨t, ht, ms, hms, h⟩
    exact ⟨t, ms, ht, hms, h.symm⟩
  · rintro ⟨t, ms, ht, hms, h⟩
    exact ⟨t, ht, ms, hms, h.symm⟩

/-- What the lookup object holds, after the loop over recipients with string
emails, for an email `s` that occurs: the name and identifier of the last
recipient with that email. -/
theorem buildLookup_found (rs : List JSVal) (t : LookupObj) (s : String)
    (ht : buildLookup { proto := none, own := [] } rs = .ok t)
    (hemail : ∀ r ∈ rs, ∃ s, r.get "email" = .ok (str s))
    (hs : ∃ r ∈ rs, r.get "email" = .ok (str s)) :
    ∃ pre r post name id, rs = pre ++ r :: post ∧ r.get "email" = .ok (str s) ∧
      (∀ r' ∈ post, r'.get "email" ≠ .ok (str s)) ∧
      r.get "name" = .ok name ∧ r.get "_id" = .ok id ∧
      t.read s = obj [("name", name), ("_id", id)] := by
  obtain ⟨pre, r, post, hsplit, hr, hpost⟩ :=
    exists_last_split (fun r => r.get "email" = .ok (str s)) rs hs
  have hnn := not_nullish_of_get_ok _ _ _ hr
  obtain ⟨name, hn⟩ := get_ok_of_not_nullish r "name" hnn
  obtain ⟨id, hi⟩ := get_ok_of_not_nullish r "_id" hnn
  refine ⟨pre, r, post, name, id, hsplit, hr, hpost, hn, hi, ?_⟩
  rw [hsplit] at ht
  refine buildLookup_last _ _ pre post r (str s) name id s ht rfl hr (toKey_str s) hn hi ?_
  intro r' hr' email' key he' hk'
  have hmem : r' ∈ rs := by
    rw [hsplit]
    exact List.mem_append_right _ (List.mem_cons_of_mem _ hr')
  obtain ⟨s', hs'⟩ := hemail r' hmem
  rw [hs'] at he'
  cases he'
  rw [toKey_str] at hk'
  cases hk'
  rintro rfl
  exact hpost r' hr' hs'

/-- An entry that is an object with a `vars` array and a `rcpt` that is the email
of a recipient is extended without a throw. -/
theorem appendVars_total (env : Env) (rs : List JSVal) (t : LookupObj) (e : JSVal)
    (ht : buildLookup { proto := none, own := [] } rs = .ok t)
    (hemail : ∀ r ∈ rs, ∃ s, r.get "email" = .ok (str s))
    (he : ∃ props xs s, e = obj props ∧ lookup "vars" props = some (arr xs) ∧
      lookup "rcpt" props = some (str s) ∧ ∃ r ∈ rs, r.get "email" = .ok (str s)) :
    ∃ m, appendVars env t e = .ok m := by
  obtain ⟨props, xs, s, rfl, hv, hr, hs⟩ := he
  obtain ⟨pre, r, post, name, id, -, -, -, -, -, hread⟩ :=
    buildLookup_found rs t s ht hemail hs
  exact ⟨_, (appendVars_ok_iff env t _ _).2 ⟨props, xs, str s, s, name, id, rfl, hv,
    by simp [get_obj, hr], toKey_str s, by rw [hread]; rfl, by rw [hread]; rfl, rfl⟩⟩

/-- C12: called with a non-empty `personalVariables` list whose every entry is an
object with a `vars` array and a `rcpt` that is the (string) email of a resolved
recipient, `txnEmail` keeps the entries, their order and every property other than
`vars`, and each `vars` becomes the original items followed by `RECIPIENT_NAME`
(the name of the last resolved recipient with that email) and
`RECIPIENT_UNSUB_URL` (built from that recipient's `_id` and the `rcpt`). -/
theorem txnEmail_appends_to_supplied (env : Env)
    (mailingInfoArray emailType vars : JSVal) (entries rs : List JSVal)
    (hrs : resolveRecipients mailingInfoArray emailType = .ok rs)
    (hne : entries ≠ [])
    (hemail : ∀ r ∈ rs, ∃ s, r.get "email" = .ok (str s))
    (hentries : ∀ e ∈ entries, ∃ props xs s,
      e = obj props ∧ lookup "vars" props = some (arr xs) ∧
      lookup "rcpt" props = some (str s) ∧ ∃ r ∈ rs, r.get "email" = .ok (str s)) :
    ∃ merged,
      mergePersonalVariables env rs (arr entries) = .ok (arr merged) ∧
      txnEmail env mailingInfoArray emailType vars (arr entries)
        = .ok (if env.IS_PROD.truthy = true ∧ 0 < rs.length then
            [jobBody emailType rs (globalVariables env vars) (arr merged)]
          else []) ∧
      merged.length = entries.length ∧
      List.Forall₂ (fun e m => ∃ xs s pre r post name id,
        e.get "vars" = .ok (arr xs) ∧ e.get "rcpt" = .ok (str s) ∧
        rs = pre ++ r :: post ∧ r.get "email" = .ok (str s) ∧
        (∀ r' ∈ post, r'.get "email" ≠ .ok (str s)) ∧
        r.get "name" = .ok name ∧ r.get "_id" = .ok id ∧
        m.get "vars" = .ok (arr (xs ++ [
          obj [("name", str "RECIPIENT_NAME"), ("content", name)],
          obj [("name", str "RECIPIENT_UNSUB_URL"),
               ("content", str ("/unsubscribe?code=" ++
                  env.encrypt (env.jsonStringify
                    (obj [("_id", id), ("email", str s)]))))]])) ∧
        ∀ k, k ≠ "vars" → m.get k = e.get k)
        entries merged := by
  obtain ⟨t, ht⟩ := buildLookup_total { proto := none, own := [] } rs hemail
  have hfound := fun s => buildLookup_found rs t s ht hemail
  have htotal : ∀ e ∈ entries, ∃ m, appendVars env t e = .ok m := fun e he =>
    appendVars_total env rs t e ht hemail (hentries e he)
  obtain ⟨merged, hmerged⟩ := mapE_total _ entries htotal
  have hmerge : mergePersonalVariables env rs (arr entries) = .ok (arr merged) :=
    (mergePersonalVariables_arr_ok_iff env rs entries hne _).2 ⟨t, merged, ht, hmerged, rfl⟩
  have hall := mapE_forall₂_mem _ _ _ hmerged
  refine ⟨merged, hmerge, ?_, hall.length_eq.symm, ?_⟩
  · exact (txnEmail_ok_iff _ _ _ _ _ _).2 ⟨rs, _, hrs, hmerge, rfl⟩
  · refine hall.imp ?_
    rintro e m ⟨he, hm⟩
    obtain ⟨props, xs, s, rfl, hv, hr, hs⟩ := hentries e he
    obtain ⟨pre, r, post, name, id, hsplit, hre, hpost, hn, hi, hread⟩ := hfound s hs
    obtain ⟨props', xs', rcpt', key', name', id', hobj, hv', hr', hk', hn', hi', rfl⟩ :=
      (appendVars_ok_iff env t _ _).1 hm
    cases hobj
    rw [hv] at hv'; cases hv'
    have hrs' : (obj props).get "rcpt" = .ok (str s) := by simp [get_obj, hr]
    rw [hrs'] at hr'; cases hr'
    rw [toKey_str] at hk'; cases hk'
    rw [hread] at hn' hi'
    cases hn'
    cases hi'
    refine ⟨xs, s, pre, r, post, name, id, by simp [get_obj, hv], hrs', hsplit, hre, hpost,
      hn, hi, ?_, ?_⟩
    · rw [get_obj, lookup_setProp_self]
      rfl
    · intro k hk
      rw [get_obj, get_obj, lookup_setProp_ne _ _ _ _ (Ne.symm hk)]

/-- C12 at `txnEmail ([bobRecord], 'welcome', undefined, [bobEntry])`. -/
theorem txnEmail_appends_to_supplied_witness :
    ∃ merged,
      mergePersonalVariables sampleEnv [bobInfo true] (arr [bobEntry]) = .ok (arr merged) ∧
      txnEmail sampleEnv (arr [bobRecord]) (str "welcome") undefined (arr [bobEntry])
        = .ok (if sampleEnv.IS_PROD.truthy = true ∧ 0 < [bobInfo true].length then
            [jobBody (str "welcome") [bobInfo true] (globalVariables sampleEnv undefined)
              (arr merged)]
          else []) ∧
      merged.length = [bobEntry].length ∧
      List.Forall₂ (fun e m => ∃ xs s pre r post name id,
        e.get "vars" = .ok (arr xs) ∧ e.get "rcpt" = .ok (str s) ∧
        [bobInfo true] = pre ++ r :: post ∧ r.get "email" = .ok (str s) ∧
        (∀ r' ∈ post, r'.get "email" ≠ .ok (str s)) ∧
        r.get "name" = .ok name ∧ r.get "_id" = .ok id ∧
        m.get "vars" = .ok (arr (xs ++ [
          obj [("name", str "RECIPIENT_NAME"), ("content", name)],
          obj [("name", str "RECIPIENT_UNSUB_URL"),
               ("content", str ("/unsubscribe?code=" ++
                  sampleEnv.encrypt (sampleEnv.jsonStringify
                    (obj [("_id", id), ("email", str s)]))))]])) ∧
        ∀ k, k ≠ "vars" → m.get k = e.get k)
        [bobEntry] merged :=
  txnEmail_appends_to_supplied sampleEnv (arr [bobRecord]) (str "welcome") undefined
    [bobEntry] [bobInfo true] rfl (by simp)
    (fun r hr => ⟨"bob@x.com", by rw [List.mem_singleton.1 hr]; rfl⟩)
    (fun e he => ⟨_, _, "bob@x.com", List.mem_singleton.1 he, rfl, rfl, bobInfo true,
      List.mem_singleton.2 rfl, rfl⟩)

/-- C13, as the claim states it, fails: with the two resolved recipients
`bob@x.com` and `a@x.com` and the one supplied entry `namedEntry`, the call
completes, the result has no entry for `a@x.com`, and the entry for `bob@x.com`
holds two `RECIPIENT_NAME` items. -/
theorem txnEmail_supplied_not_one_per_recipient :
    resolveRecipients (arr [bobRecord, plainContact]) (str "welcome")
      = .ok [bobInfo true, plainContact] ∧
    txnEmail sampleEnv (arr [bobRecord, plainContact]) (str "welcome") undefined
        (arr [namedEntry])
      = .ok [jobBody (str "welcome") [bobInfo true, plainContact]
          (globalVariables sampleEnv undefined)
          (arr [obj [("rcpt", str "bob@x.com"),
                     ("vars", arr [
                        obj [("name", str "RECIPIENT_NAME"), ("content", str "Robert")],
                        obj [("name", str "RECIPIENT_NAME"), ("content", str "bob")],
                        obj [("name", str "RECIPIENT_UNSUB_URL"),
                             ("content", str "/unsubscribe?code=")]])]])] := by
  refine ⟨rfl, ?_⟩
  refine (txnEmail_ok_iff _ _ _ _ _ _).2 ⟨[bobInfo true, plainContact], _, rfl, ?_, rfl⟩
  refine (mergePersonalVariables_arr_ok_iff _ _ _ (by simp) _).2
    ⟨{ proto := none,
       own := [("bob@x.com", obj [("name", str "bob"), ("_id", str "u1")]),
               ("a@x.com", obj [("name", undefined), ("_id", undefined)])] }, _, ?_, ?_, rfl⟩
  · refine (buildLookup_cons_ok _ _ _ _).2
      ⟨str "bob@x.com", "bob@x.com", str "bob", str "u1", rfl, toKey_str _, rfl, rfl, ?_⟩
    refine (buildLookup_cons_ok _ _ _ _).2
      ⟨str "a@x.com", "a@x.com", undefined, undefined, rfl, toKey_str _, rfl, rfl, ?_⟩
    rfl
  · refine (mapE_ok_cons _ _ _ _).2 ⟨_, [], ?_, rfl, rfl⟩
    exact (appendVars_ok_iff _ _ _ _).2
      ⟨_, _, str "bob@x.com", "bob@x.com", str "bob", str "u1", rfl, rfl, rfl, toKey_str _,
        rfl, rfl, rfl⟩

/-- C13 (amended): for every call of `txnEmail` that completes, with no
personalization supplied the result has, for each resolved recipient in order, one
entry whose `vars` are exactly one `RECIPIENT_NAME` item and one
`RECIPIENT_UNSUB_URL` item; with personalization supplied the result has exactly
the supplied entries, each with its pre-existing `vars` followed by exactly one
appended `RECIPIENT_NAME` item and one appended `RECIPIENT_UNSUB_URL` item. -/
theorem txnEmail_personalVariables_shape (env : Env)
    (mailingInfoArray emailType vars personalVariables : JSVal) (calls : List JSVal)
    (h : txnEmail env mailingInfoArray emailType vars personalVariables = .ok calls) :
    ∃ rs merged,
      resolveRecipients mailingInfoArray emailType = .ok rs ∧
      mergePersonalVariables env rs personalVariables = .ok merged ∧
      (∀ body ∈ calls, body = jobBody emailType rs (globalVariables env vars) merged) ∧
      ((personalVariables.truthy = false ∨
          personalVariables.get "length" = .ok (num 0)) →
        ∃ entries, merged = arr entries ∧
          List.Forall₂ (fun r e => ∃ email name content,
            r.get "email" = .ok email ∧ r.get "name" = .ok name ∧
            e = obj [("rcpt", email),
                     ("vars", arr [
                        obj [("name", str "RECIPIENT_NAME"), ("content", name)],
                        obj [("name", str "RECIPIENT_UNSUB_URL"),
                             ("content", str content)]])])
            rs entries) ∧
      (¬ (personalVariables.truthy = false ∨
          personalVariables.get "length" = .ok (num 0)) →
        ∃ entries ms, personalVariables = arr entries ∧ merged = arr ms ∧
          List.Forall₂ (fun e m => ∃ xs name content,
            e.get "vars" = .ok (arr xs) ∧
            m.get "vars" = .ok (arr (xs ++ [
              obj [("name", str "RECIPIENT_NAME"), ("content", name)],
              obj [("name", str "RECIPIENT_UNSUB_URL"), ("content", str content)]])) ∧
            ∀ k, k ≠ "vars" → m.get k = e.get k)
            entries ms) := by
  obtain ⟨rs, merged, hrs, hmerge, hcalls⟩ := (txnEmail_ok_iff _ _ _ _ _ _).1 h
  refine ⟨rs, merged, hrs, hmerge, ?_, ?_, ?_⟩
  · intro body hbody
    rw [hcalls] at hbody
    split at hbody
    · exact List.mem_singleton.1 hbody
    · simp at hbody
  · intro hmode
    rw [mergePersonalVariables_none_supplied env rs _ hmode] at hmerge
    obtain ⟨entries, hentries, hm⟩ := (bind_eq_ok _ _ _).1 hmerge
    refine ⟨entries, ((pure_eq_ok _ _).1 hm).symm, ?_⟩
    refine ((mapE_ok_forall₂ _ _ _).1 hentries).imp ?_
    intro r e he
    obtain ⟨email, name, id, h1, h2, -, h4⟩ := (synthEntry_ok_iff env r e).1 he
    exact ⟨email, name, _, h1, h2, h4⟩
  · intro hmode
    rw [mergePersonalVariables_supplied env rs _ hmode] at hmerge
    obtain ⟨t, -, hm⟩ := (bind_eq_ok _ _ _).1 hmerge
    cases personalVariables with
    | arr entries =>
      obtain ⟨ms, hms, hm⟩ := (bind_eq_ok _ _ _).1 hm
      refine ⟨entries, ms, rfl, ((pure_eq_ok _ _).1 hm).symm, ?_⟩
      refine ((mapE_ok_forall₂ _ _ _).1 hms).imp ?_
      intro e m hem
      obtain ⟨props, xs, rcpt, key, name, id, rfl, hv, -, -, -, -, rfl⟩ :=
        (appendVars_ok_iff env t e m).1 hem
      refine ⟨xs, name, "/unsubscribe?code=" ++
        env.encrypt (env.jsonStringify (obj [("_id", id), ("email", rcpt)])),
        by simp [get_obj, hv], ?_, ?_⟩
      · rw [get_obj, lookup_setProp_self]
        rfl
      · intro k hk
        rw [get_obj, get_obj, lookup_setProp_ne _ _ _ _ (Ne.symm hk)]
    | _ => cases hm

/-- C13 (amended) at the production call `txnEmail ([bobRecord], 'welcome',
undefined, [bobEntry])`. -/
theorem txnEmail_personalVariables_shape_witness :
    ∃ rs merged,
      resolveRecipients (arr [bobRecord]) (str "welcome") = .ok rs ∧
      mergePersonalVariables sampleEnv rs (arr [bobEntry]) = .ok merged ∧
      (∀ body ∈ [jobBody (str "welcome") [bobInfo true]
            (globalVariables sampleEnv undefined)
            (arr [obj [("rcpt", str "bob@x.com"),
                       ("vars", arr [
                          obj [("name", str "GREETING"), ("content", str "hi")],
                          obj [("name", str "RECIPIENT_NAME"), ("content", str "bob")],
                          obj [("name", str "RECIPIENT_UNSUB_URL"),
                               ("content", str "/unsubscribe?code=")]])]])],
        body = jobBody (str "welcome") rs (globalVariables sampleEnv undefined) merged) ∧
      (¬ ((arr [bobEntry]).truthy = false ∨
          (arr [bobEntry]).get "length" = .ok (num 0)) →
        ∃ entries ms, arr [bobEntry] = arr entries ∧ merged = arr ms ∧
          List.Forall₂ (fun e m => ∃ xs name content,
            e.get "vars" = .ok (arr xs) ∧
            m.get "vars" = .ok (arr (xs ++ [
              obj [("name", str "RECIPIENT_NAME"), ("content", name)],
              obj [("name", str "RECIPIENT_UNSUB_URL"), ("content", str content)]])) ∧
            ∀ k, k ≠ "vars" → m.get k = e.get k)
            entries ms) := by
  have hcall : txnEmail sampleEnv (arr [bobRecord]) (str "welcome") undefined
      (arr [bobEntry])
      = .ok [jobBody (str "welcome") [bobInfo true] (globalVariables sampleEnv undefined)
          (arr [obj [("rcpt", str "bob@x.com"),
                     ("vars", arr [
                        obj [("name", str "GREETING"), ("content", str "hi")],
                        obj [("name", str "RECIPIENT_NAME"), ("content", str "bob")],
                        obj [("name", str "RECIPIENT_UNSUB_URL"),
                             ("content", str "/unsubscribe?code=")]])]])] := by
    refine (txnEmail_ok_iff _ _ _ _ _ _).2 ⟨[bobInfo true], _, rfl, ?_, rfl⟩
    refine (mergePersonalVariables_arr_ok_iff _ _ _ (by simp) _).2
      ⟨{ proto := none,
         own := [("bob@x.com", obj [("name", str "bob"), ("_id", str "u1")])] }, _,
        ?_, ?_, rfl⟩
    · exact (buildLookup_cons_ok _ _ _ _).2
        ⟨str "bob@x.com", "bob@x.com", str "bob", str "u1", rfl, toKey_str _, rfl, rfl, rfl⟩
    · refine (mapE_ok_cons _ _ _ _).2 ⟨_, [], ?_, rfl, rfl⟩
      exact (appendVars_ok_iff _ _ _ _).2
        ⟨_, _, str "bob@x.com", "bob@x.com", str "bob", str "u1", rfl, rfl, rfl,
          toKey_str _, rfl, rfl, rfl⟩
  obtain ⟨rs, merged, h1, h2, h3, -, h5⟩ :=
    txnEmail_personalVariables_shape sampleEnv (arr [bobRecord]) (str "welcome") undefined
      (arr [bobEntry]) _ hcall
  exact ⟨rs, merged, h1, h2, h3, h5⟩

/-- A call whose resolver returns and whose merge throws, throws. -/
theorem txnEmail_error_of_merge (env : Env)
    (mailingInfoArray emailType vars personalVariables : JSVal) (rs : List JSVal)
    (hrs : resolveRecipients mailingInfoArray emailType = .ok rs)
    (hm : mergePersonalVariables env rs personalVariables = .error .typeError) :
    txnEmail env mailingInfoArray emailType vars personalVariables = .error .typeError := by
  cases h : txnEmail env mailingInfoArray emailType vars personalVariables with
  | error e => cases e; rfl
  | ok calls =>
    obtain ⟨rs', merged, hrs', hm', -⟩ := (txnEmail_ok_iff _ _ _ _ _ _).1 h
    rw [hrs] at hrs'
    cases hrs'
    rw [hm] at hm'
    cases hm'

/-- A key that is neither the key of a recipient's email nor inherited from
`Object.prototype` reads as `undefined`, as long as no email has the key
`__proto__`. -/
theorem read_undefined (rs : List JSVal) (t : LookupObj) (s : String)
    (ht : buildLookup { proto := none, own := [] } rs = .ok t)
    (hkeys : ∀ r ∈ rs, ∀ email key, r.get "email" = .ok email → toKey email = .ok key →
      key ≠ s ∧ key ≠ "__proto__")
    (hproto : lookup s objectPrototype = none) (hs : s ≠ "__proto__") :
    t.read s = undefined := by
  obtain ⟨hown, -⟩ := buildLookup_frame _ _ _ s ht
    (fun r hr email key he hk => (hkeys r hr email key he hk).1)
  obtain ⟨-, hp⟩ := buildLookup_frame _ _ _ "__proto__" ht
    (fun r hr email key he hk => (hkeys r hr email key he hk).2)
  have hp' : t.proto = none := hp rfl
  have hown' : lookup s t.own = none := hown
  unfold LookupObj.read
  simp [hown', hs, hp', hproto]

/-- C14, as the claim states it, fails: `constructor` is not the email of the one
resolved recipient (`bob@x.com`), yet the call with the supplied entry
`constructorEntry` completes and enqueues a job, with `RECIPIENT_NAME = 'Object'`
read off the inherited `Object.prototype.constructor`. -/
theorem txnEmail_inherited_rcpt_enqueues :
    resolveRecipients (arr [bobRecord]) (str "welcome") = .ok [bobInfo true] ∧
    (bobInfo true).get "email" = .ok (str "bob@x.com") ∧
    constructorEntry.get "rcpt" = .ok (str "constructor") ∧
    txnEmail sampleEnv (arr [bobRecord]) (str "welcome") undefined (arr [constructorEntry])
      = .ok [jobBody (str "welcome") [bobInfo true] (globalVariables sampleEnv undefined)
          (arr [obj [("rcpt", str "constructor"),
                     ("vars", arr [
                        obj [("name", str "RECIPIENT_NAME"), ("content", str "Object")],
                        obj [("name", str "RECIPIENT_UNSUB_URL"),
                             ("content", str "/unsubscribe?code=")]])]])] := by
  refine ⟨rfl, rfl, rfl, ?_⟩
  refine (txnEmail_ok_iff _ _ _ _ _ _).2 ⟨[bobInfo true], _, rfl, ?_, rfl⟩
  refine (mergePersonalVariables_arr_ok_iff _ _ _ (by simp) _).2
    ⟨{ proto := none,
       own := [("bob@x.com", obj [("name", str "bob"), ("_id", str "u1")])] }, _,
      ?_, ?_, rfl⟩
  · exact (buildLookup_cons_ok _ _ _ _).2
      ⟨str "bob@x.com", "bob@x.com", str "bob", str "u1", rfl, toKey_str _, rfl, rfl, rfl⟩
  · refine (mapE_ok_cons _ _ _ _).2 ⟨_, [], ?_, rfl, rfl⟩
    exact (appendVars_ok_iff _ _ _ _).2
      ⟨_, _, str "constructor", "constructor", str "Object", undefined, rfl, rfl, rfl,
        toKey_str _, rfl, rfl, rfl⟩

/-- C14 (amended): with a supplied list `entries`, the call throws (and so
enqueues nothing) if some entry's `rcpt` has a key `s` (its string conversion)
that is the key of no resolved recipient's email and not the name of a property
inherited from `Object.prototype` (`constructor`, `toString`, ..., `__proto__`),
no email having the key `__proto__`; and the call completes when the list is
non-empty and every entry is an object with a `vars` array whose `rcpt` is the
(string) email of a resolved recipient. -/
theorem txnEmail_missing_rcpt_throws (env : Env)
    (mailingInfoArray emailType vars : JSVal) (entries rs : List JSVal)
    (hrs : resolveRecipients mailingInfoArray emailType = .ok rs) :
    (∀ e ∈ entries, ∀ rcpt s, e.get "rcpt" = .ok rcpt → toKey rcpt = .ok s →
      (∀ r ∈ rs, ∀ email key, r.get "email" = .ok email → toKey email = .ok key →
        key ≠ s ∧ key ≠ "__proto__") →
      lookup s objectPrototype = none → s ≠ "__proto__" →
      mergePersonalVariables env rs (arr entries) = .error .typeError ∧
      txnEmail env mailingInfoArray emailType vars (arr entries) = .error .typeError) ∧
    (entries ≠ [] →
      (∀ r ∈ rs, ∃ s, r.get "email" = .ok (str s)) →
      (∀ e ∈ entries, ∃ props xs s,
        e = obj props ∧ lookup "vars" props = some (arr xs) ∧
        lookup "rcpt" props = some (str s) ∧ ∃ r ∈ rs, r.get "email" = .ok (str s)) →
      ∃ merged calls, mergePersonalVariables env rs (arr entries) = .ok merged ∧
        txnEmail env mailingInfoArray emailType vars (arr entries) = .ok calls) := by
  constructor
  · intro e he rcpt s hr hk hkeys hproto hs
    have hne : entries ≠ [] := by
      rintro rfl
      simp at he
    have hmerge : mergePersonalVariables env rs (arr entries) = .error .typeError := by
      cases hm : mergePersonalVariables env rs (arr entries) with
      | error err => cases err; rfl
      | ok merged =>
        obtain ⟨t, ms, ht, hms, -⟩ :=
          (mergePersonalVariables_arr_ok_iff env rs entries hne merged).1 hm
        have hread := read_undefined rs t s ht hkeys hproto hs
        have herr := mapE_error_of_mem (appendVars env t) entries e he
          (appendVars_error env t e rcpt s hr hk hread)
        rw [herr] at hms
        cases hms
    exact ⟨hmerge, txnEmail_error_of_merge _ _ _ _ _ _ hrs hmerge⟩
  · intro hne hemail hentries
    obtain ⟨t, ht⟩ := buildLookup_total { proto := none, own := [] } rs hemail
    obtain ⟨ms, hms⟩ := mapE_total (appendVars env t) entries
      (fun e he => appendVars_total env rs t e ht hemail (hentries e he))
    have hmerge : mergePersonalVariables env rs (arr entries) = .ok (arr ms) :=
      (mergePersonalVariables_arr_ok_iff env rs entries hne _).2 ⟨t, ms, ht, hms, rfl⟩
    exact ⟨arr ms, _, hmerge, (txnEmail_ok_iff _ _ _ _ _ _).2 ⟨rs, _, hrs, hmerge, rfl⟩⟩

/-- C14 (amended) at `bobUnsubscribed`, whom the consent filter removes for
`'welcome'`: the supplied entry for `bob@x.com` makes the call throw; and at
`bobRecord`, who is resolved: the same entry goes through. -/
theorem txnEmail_missing_rcpt_throws_witness :
    txnEmail sampleEnv (arr [bobUnsubscribed]) (str "welcome") undefined (arr [bobEntry])
      = .error .typeError ∧
    ∃ merged calls,
      mergePersonalVariables sampleEnv [bobInfo true] (arr [bobEntry]) = .ok merged ∧
      txnEmail sampleEnv (arr [bobRecord]) (str "welcome") undefined (arr [bobEntry])
        = .ok calls :=
  ⟨((txnEmail_missing_rcpt_throws sampleEnv (arr [bobUnsubscribed]) (str "welcome")
      undefined [bobEntry] [] rfl).1 bobEntry (List.mem_singleton.2 rfl) (str "bob@x.com")
      "bob@x.com" rfl (toKey_str _) (fun r hr => absurd hr (List.not_mem_nil r)) rfl
      (by decide)).2,
    (txnEmail_missing_rcpt_throws sampleEnv (arr [bobRecord]) (str "welcome") undefined
      [bobEntry] [bobInfo true] rfl).2 (by simp)
      (fun r hr => ⟨"bob@x.com", by rw [List.mem_singleton.1 hr]; rfl⟩)
      (fun e he => ⟨_, _, "bob@x.com", List.mem_singleton.1 he, rfl, rfl, bobInfo true,
        List.mem_singleton.2 rfl, rfl⟩)⟩

/-! ### Claims on the dispatch -/

/-- C15: `txnEmail` never calls the queue when the resolved recipient list is
empty, even in production, and never outside production; in production, with a
non-empty resolved list and a merge that does not throw, it calls it exactly
once. -/
theorem txnEmail_enqueue_gate (env : Env)
    (mailingInfoArray emailType vars personalVariables : JSVal) :
    (∀ calls, txnEmail env mailingInfoArray emailType vars personalVariables = .ok calls →
      resolveRecipients mailingInfoArray emailType = .ok [] → calls = []) ∧
    (∀ calls, txnEmail env mailingInfoArray emailType vars personalVariables = .ok calls →
      env.IS_PROD.truthy = false → calls = []) ∧
    (∀ rs merged, env.IS_PROD.truthy = true →
      resolveRecipients mailingInfoArray emailType = .ok rs → rs ≠ [] →
      mergePersonalVariables env rs personalVariables = .ok merged →
      ∃ body, txnEmail env mailingInfoArray emailType vars personalVariables
        = .ok [body]) := by
  refine ⟨?_, ?_, ?_⟩
  · intro calls h hempty
    obtain ⟨rs, merged, hrs, -, hcalls⟩ := (txnEmail_ok_iff _ _ _ _ _ _).1 h
    rw [hempty] at hrs
    cases hrs
    rw [hcalls]
    simp
  · intro calls h hprod
    obtain ⟨rs, merged, -, -, hcalls⟩ := (txnEmail_ok_iff _ _ _ _ _ _).1 h
    rw [hcalls]
    simp [hprod]
  · intro rs merged hprod hrs hne hmerge
    refine ⟨jobBody emailType rs (globalVariables env vars) merged, ?_⟩
    refine (txnEmail_ok_iff _ _ _ _ _ _).2 ⟨rs, merged, hrs, hmerge, ?_⟩
    have hlen : 0 < rs.length := List.length_pos.2 hne
    simp [hprod, hlen]

/-- C15 at `bobUnsubscribed` in production (empty resolved list, no call) and at
`bobRecord` in production (one call). -/
theorem txnEmail_enqueue_gate_witness :
    txnEmail sampleEnv (arr [bobUnsubscribed]) (str "welcome") undefined undefined
      = .ok [] ∧
    ∃ body, txnEmail sampleEnv (arr [bobRecord]) (str "welcome") undefined undefined
      = .ok [body] := by
  have h := txnEmail_enqueue_gate sampleEnv (arr [bobUnsubscribed]) (str "welcome")
    undefined undefined
  have h' := txnEmail_enqueue_gate sampleEnv (arr [bobRecord]) (str "welcome")
    undefined undefined
  refine ⟨?_, h'.2.2 [bobInfo true] _ rfl rfl (by simp) rfl⟩
  have hcall : txnEmail sampleEnv (arr [bobUnsubscribed]) (str "welcome") undefined
      undefined = .ok [] := rfl
  rw [hcall, h.1 [] hcall rfl]

/-- C16: a job `txnEmail` enqueues has the body `{type: 'email', data: {emailType,
to, variables, personalVariables}, options: {priority: 'high', attempts: 5,
backoff: {delay: 600000, type: 'fixed'}}}`, with `to` the resolved list,
`personalVariables` the merged list, and `variables` the `BASE_URL` entry followed
by the caller's variables in order (the `BASE_URL` entry alone when none are
supplied). -/
theorem txnEmail_job_body (env : Env)
    (mailingInfoArray emailType vars personalVariables : JSVal) (calls : List JSVal)
    (h : txnEmail env mailingInfoArray emailType vars personalVariables = .ok calls) :
    ∀ body ∈ calls, ∃ rs merged globalVars,
      resolveRecipients mailingInfoArray emailType = .ok rs ∧
      mergePersonalVariables env rs personalVariables = .ok merged ∧
      body = obj [("type", str "email"),
                  ("data", obj [("emailType", emailType),
                                ("to", arr rs),
                                ("variables", arr globalVars),
                                ("personalVariables", merged)]),
                  ("options", obj [("priority", str "high"),
                                   ("attempts", num 5),
                                   ("backoff", obj [("delay", num 600000),
                                                    ("type", str "fixed")])])] ∧
      (∀ vs, vars = arr vs →
        globalVars = obj [("name", str "BASE_URL"), ("content", env.BASE_URL)] :: vs) ∧
      (vars.truthy = false →
        globalVars = [obj [("name", str "BASE_URL"), ("content", env.BASE_URL)]]) := by
  obtain ⟨rs, merged, hrs, hmerge, hcalls⟩ := (txnEmail_ok_iff _ _ _ _ _ _).1 h
  intro body hbody
  rw [hcalls] at hbody
  split at hbody
  · rw [List.mem_singleton] at hbody
    subst hbody
    refine ⟨rs, merged, globalVariables env vars, hrs, hmerge, rfl, ?_, ?_⟩
    · rintro vs rfl
      rfl
    · intro hv
      simp [globalVariables, hv, concat]
  · simp at hbody

/-- C16 at the production call `txnEmail ([bobRecord], 'welcome', [{name: 'X',
content: 1}])`. -/
theorem txnEmail_job_body_witness :
    ∃ merged,
      txnEmail sampleEnv (arr [bobRecord]) (str "welcome")
          (arr [obj [("name", str "X"), ("content", num 1)]]) undefined
        = .ok [obj [("type", str "email"),
                    ("data", obj [("emailType", str "welcome"),
                                  ("to", arr [bobInfo true]),
                                  ("variables", arr [
                                     obj [("name", str "BASE_URL"),
                                          ("content", str "https://habitica.com")],
                                     obj [("name", str "X"), ("content", num 1)]]),
                                  ("personalVariables", merged)]),
                    ("options", obj [("priority", str "high"),
                                     ("attempts", num 5),
                                     ("backoff", obj [("delay", num 600000),
                                                      ("type", str "fixed")])])]] := by
  have hcall : txnEmail sampleEnv (arr [bobRecord]) (str "welcome")
      (arr [obj [("name", str "X"), ("content", num 1)]]) undefined
      = .ok [jobBody (str "welcome") [bobInfo true]
          (globalVariables sampleEnv (arr [obj [("name", str "X"), ("content", num 1)]]))
          (arr [obj [("rcpt", str "bob@x.com"),
                     ("vars", arr (recipientVars sampleEnv (str "bob") (str "u1")
                        (str "bob@x.com")))]])] := rfl
  obtain ⟨rs, merged, gv, hrs, -, hbody, hgv, -⟩ :=
    txnEmail_job_body sampleEnv (arr [bobRecord]) (str "welcome")
      (arr [obj [("name", str "X"), ("content", num 1)]]) undefined _ hcall _
      (List.mem_singleton.2 rfl)
  have hrs' : rs = [bobInfo true] := by
    have : resolveRecipients (arr [bobRecord]) (str "welcome") = .ok [bobInfo true] := rfl
    rw [this] at hrs
    cases hrs
    rfl
  subst hrs'
  rw [hgv _ rfl] at hbody
  exact ⟨merged, by rw [hcall, hbody]; rfl⟩

/-- C17, as the claim states it, fails: the one resolved entry for `bobRecord` and
`'welcome'` is not an object of identifier, email and name only, it also carries
`canSend: true`. -/
theorem resolveRecipients_bob_entry_has_canSend :
    resolveRecipients (arr [bobRecord]) (str "welcome")
      = .ok [obj [("name", str "bob"), ("email", str "bob@x.com"), ("_id", str "u1"),
                  ("canSend", .bool true)]] ∧
    (obj [("name", str "bob"), ("email", str "bob@x.com"), ("_id", str "u1"),
          ("canSend", .bool true)]).hasKey "canSend" = true ∧
    (obj [("_id", str "u1"), ("email", str "bob@x.com"), ("name", str "bob")]).hasKey
      "canSend" = false :=
  ⟨rfl, rfl, rfl⟩

/-- C17 (amended): for `mailingInfoArray = [bobRecord]` and `emailType =
'welcome'` the resolved recipient list is exactly the one entry `{name: 'bob',
email: 'bob@x.com', _id: 'u1', canSend: true}`, and nothing is enqueued unless the
production flag is set: without it every completed call makes no request, with it
the call without personalization makes one. -/
theorem txnEmail_bob_example :
    resolveRecipients (arr [bobRecord]) (str "welcome")
      = .ok [obj [("name", str "bob"), ("email", str "bob@x.com"), ("_id", str "u1"),
                  ("canSend", .bool true)]] ∧
    (∀ env vars personalVariables calls, env.IS_PROD.truthy = false →
      txnEmail env (arr [bobRecord]) (str "welcome") vars personalVariables = .ok calls →
      calls = []) ∧
    (∀ env vars, env.IS_PROD.truthy = false →
      txnEmail env (arr [bobRecord]) (str "welcome") vars undefined = .ok []) ∧
    (∀ env vars, env.IS_PROD.truthy = true →
      ∃ body, txnEmail env (arr [bobRecord]) (str "welcome") vars undefined
        = .ok [body]) := by
  have hrs : resolveRecipients (arr [bobRecord]) (str "welcome")
      = .ok [bobInfo true] := rfl
  have hmerge : ∀ env : Env, mergePersonalVariables env [bobInfo true] undefined
      = .ok (arr [obj [("rcpt", str "bob@x.com"),
          ("vars", arr (recipientVars env (str "bob") (str "u1") (str "bob@x.com")))]]) :=
    fun _ => rfl
  refine ⟨rfl, ?_, ?_, ?_⟩
  · intro env vars pv calls hprod h
    obtain ⟨rs, merged, -, -, hcalls⟩ := (txnEmail_ok_iff _ _ _ _ _ _).1 h
    rw [hcalls]
    simp [hprod]
  · intro env vars hprod
    refine (txnEmail_ok_iff _ _ _ _ _ _).2 ⟨_, _, hrs, hmerge env, ?_⟩
    simp [hprod]
  · intro env vars hprod
    have h := (txnEmail_ok_iff env (arr [bobRecord]) (str "welcome") vars undefined _).2
      ⟨[bobInfo true], _, hrs, hmerge env, rfl⟩
    rw [if_pos ⟨hprod, by simp⟩] at h
    exact ⟨_, h⟩

/-- C17 (amended) at `sampleEnv`, which is in production: one request. -/
theorem txnEmail_bob_example_witness :
    ∃ body, txnEmail sampleEnv (arr [bobRecord]) (str "welcome") undefined undefined
      = .ok [body] :=
  txnEmail_bob_example.2.2.2 sampleEnv undefined rfl

/-- C18: for a value `x` that is not an array, `txnEmail (x, ...)` is
`txnEmail ([x], ...)`: same resolved recipients, same outcome, same requests. -/
theorem txnEmail_single_value (env : Env) (x emailType vars personalVariables : JSVal)
    (hx : ∀ xs, x ≠ arr xs) :
    resolveRecipients x emailType = resolveRecipients (arr [x]) emailType ∧
    txnEmail env x emailType vars personalVariables
      = txnEmail env (arr [x]) emailType vars personalVariables := by
  have hnorm : normalize x = normalize (arr [x]) := by
    cases x with
    | arr xs => exact absurd rfl (hx xs)
    | _ => rfl
  have hres : resolveRecipients x emailType = resolveRecipients (arr [x]) emailType := by
    unfold resolveRecipients
    rw [hnorm]
  refine ⟨hres, ?_⟩
  unfold txnEmail
  rw [hres]

/-- C18 at the single record `bobRecord`. -/
theorem txnEmail_single_value_witness :
    resolveRecipients bobRecord (str "welcome")
      = resolveRecipients (arr [bobRecord]) (str "welcome") ∧
    txnEmail sampleEnv bobRecord (str "welcome") undefined undefined
      = txnEmail sampleEnv (arr [bobRecord]) (str "welcome") undefined undefined :=
  txnEmail_single_value sampleEnv bobRecord (str "welcome") undefined undefined
    (fun xs h => by cases h)

/-! ### Further claims on `getUserInfo` and the resolver -/

/-- Whether a guarded statement runs depends only on whether its key occurs in the
field list. -/
theorem whenRequested_congr (fields fields' : List JSVal) (k : String)
    (step : List (String × JSVal) → Except JSError (List (String × JSVal)))
    (info : List (String × JSVal)) (h : str k ∈ fields ↔ str k ∈ fields') :
    whenRequested fields' k step info = whenRequested fields k step info := by
  by_cases hk : str k ∈ fields
  · rw [whenRequested_of_requested _ _ _ _ ((indexOf_ne_iff _ _).2 hk),
      whenRequested_of_requested _ _ _ _ ((indexOf_ne_iff _ _).2 (h.1 hk))]
  · have h1 : indexOf fields k = -1 := by
      by_contra hc
      exact hk ((indexOf_ne_iff _ _).1 hc)
    have h2 : indexOf fields' k = -1 := by
      by_contra hc
      exact hk (h.2 ((indexOf_ne_iff _ _).1 hc))
    rw [whenRequested_of_not_requested _ _ _ _ h1,
      whenRequested_of_not_requested _ _ _ _ h2]

/-- Every key of the object `getUserInfo` returns is one of the four field names
and was requested. -/
theorem getUserInfo_keys (user : JSVal) (fields : List JSVal) (info : JSVal)
    (h : getUserInfo user fields = .ok info) :
    ∃ props, info = obj props ∧ ∀ k, (lookup k props).isSome = true →
      str k ∈ fields ∧ (k = "name" ∨ k = "email" ∨ k = "_id" ∨ k = "canSend") := by
  obtain ⟨i1, i2, i3, i4, h1, h2, h3, h4, rfl⟩ := (getUserInfo_ok_iff _ _ _).1 h
  refine ⟨i4, rfl, ?_⟩
  intro k hk
  rcases whenRequested_keys _ _ k _ _ _ (canSendStep_frame user) h4 hk with ⟨rfl, h⟩ | hk
  · exact ⟨h, Or.inr (Or.inr (Or.inr rfl))⟩
  rcases whenRequested_keys _ _ k _ _ _ (idStep_frame user) h3 hk with ⟨rfl, h⟩ | hk
  · exact ⟨h, Or.inr (Or.inr (Or.inl rfl))⟩
  rcases whenRequested_keys _ _ k _ _ _ (emailStep_frame' user) h2 hk with ⟨rfl, h⟩ | hk
  · exact ⟨h, Or.inr (Or.inl rfl)⟩
  rcases whenRequested_keys _ _ k _ _ _ (nameStep_frame' user) h1 hk with ⟨rfl, h⟩ | hk
  · exact ⟨h, Or.inl rfl⟩
  simp [lookup] at hk

/-- C19: the result of `getUserInfo` has only keys among the requested fields
`name`, `email`, `_id`, `canSend`; when `_id` is requested the result's `_id` is
the record's `_id`, unchanged; and two field lists that request the same fields,
in whatever order and with whatever repetition, give the same result. -/
theorem getUserInfo_requested_only (user : JSVal) (fields : List JSVal) :
    (∀ info, getUserInfo user fields = .ok info →
      ∀ k, info.hasKey k = true →
        str k ∈ fields ∧ (k = "name" ∨ k = "email" ∨ k = "_id" ∨ k = "canSend")) ∧
    (∀ info, getUserInfo user fields = .ok info → str "_id" ∈ fields →
      ∃ id, user.get "_id" = .ok id ∧ info.get "_id" = .ok id ∧
        info.hasKey "_id" = true) ∧
    (∀ fields' : List JSVal,
      (str "name" ∈ fields ↔ str "name" ∈ fields') →
      (str "email" ∈ fields ↔ str "email" ∈ fields') →
      (str "_id" ∈ fields ↔ str "_id" ∈ fields') →
      (str "canSend" ∈ fields ↔ str "canSend" ∈ fields') →
      getUserInfo user fields' = getUserInfo user fields) := by
  refine ⟨?_, ?_, ?_⟩
  · intro info h k hk
    obtain ⟨props, rfl, hkeys⟩ := getUserInfo_keys user fields info h
    exact hkeys k hk
  · intro info h hreq
    obtain ⟨i1, i2, i3, i4, -, -, h3, h4, rfl⟩ := (getUserInfo_ok_iff _ _ _).1 h
    rw [whenRequested_of_requested _ _ _ _ ((indexOf_ne_iff _ _).2 hreq)] at h3
    obtain ⟨id, hid, rfl⟩ := (idStep_ok_iff _ _ _).1 h3
    have hl : lookup "_id" i4 = some id := by
      rw [whenRequested_lookup_ne _ _ "_id" _ _ _ (canSendStep_frame user) h4 (by decide)]
      exact lookup_setProp_self _ _ _
    exact ⟨id, hid, by simp [get_obj, hl], by simp [hasKey, hl]⟩
  · intro fields' hn he hi hc
    unfold getUserInfo
    simp only [whenRequested_congr fields fields' _ _ _ hn,
      whenRequested_congr fields fields' _ _ _ he,
      whenRequested_congr fields fields' _ _ _ hi,
      whenRequested_congr fields fields' _ _ _ hc]

/-- C19 at `bobRecord`: the fields `name` and `_id`, requested as
`['_id', 'name', '_id']` or as `['name', '_id']`, give `{name: 'bob', _id:
'u1'}`. -/
theorem getUserInfo_requested_only_witness :
    getUserInfo bobRecord [str "_id", str "name", str "_id"]
      = .ok (obj [("name", str "bob"), ("_id", str "u1")]) ∧
    ∃ id, bobRecord.get "_id" = .ok id ∧
      (obj [("name", str "bob"), ("_id", str "u1")]).get "_id" = .ok id ∧
      (obj [("name", str "bob"), ("_id", str "u1")]).hasKey "_id" = true := by
  have h := getUserInfo_requested_only bobRecord [str "name", str "_id"]
  have hcall : getUserInfo bobRecord [str "name", str "_id"]
      = .ok (obj [("name", str "bob"), ("_id", str "u1")]) := rfl
  refine ⟨?_, h.2.1 _ hcall (by simp)⟩
  rw [h.2.2 [str "_id", str "name", str "_id"] (by simp) (by simp) (by simp) (by simp)]
  exact hcall

/-- C20: the resolved recipient list is a sublist of the mapped input, in order
(so it is no longer than the input), and every input element without an identifier
whose email is truthy is in it, unchanged, whatever else it carries. -/
theorem resolveRecipients_sublist (mailingInfoArray emailType : JSVal)
    (mapped : List JSVal)
    (hmap : mapE mapInfo (normalize mailingInfoArray) = .ok mapped) :
    ∃ rs, resolveRecipients mailingInfoArray emailType = .ok rs ∧
      rs.Sublist mapped ∧
      rs.length ≤ (normalize mailingInfoArray).length ∧
      ∀ x ∈ normalize mailingInfoArray, ∀ id email,
        x.get "_id" = .ok id → id.truthy = false →
        x.get "email" = .ok email → email.truthy = true → x ∈ rs := by
  obtain ⟨rs, hrs, hsub, hmem⟩ := resolveRecipients_of_mapped _ emailType _ hmap
  refine ⟨rs, hrs, hsub, ?_, ?_⟩
  · rw [((mapE_ok_forall₂ _ _ _).1 hmap).length_eq]
    exact hsub.length_le
  · intro x hx id email hid hidt he het
    have hxm : mapInfo x = .ok x := (mapInfo_ok_iff x x).2 ⟨id, hid, Or.inr ⟨hidt, rfl⟩⟩
    obtain ⟨y, hy, hxy⟩ := mapE_mem_left _ _ _ hmap x hx
    rw [hxm] at hxy
    cases hxy
    exact (hmem x).2 ⟨hy, (keep_mapped_iff emailType x x hxm).2
      ⟨⟨email, he, het⟩, Or.inl ⟨id, hid, hidt⟩⟩⟩

/-- C20 at `[bobUnsubscribed, plainContact]` with `'welcome'`: the contact
without identifier is kept although it carries `canSend: false`. -/
theorem resolveRecipients_sublist_witness :
    ∃ rs, resolveRecipients (arr [bobUnsubscribed, plainContact]) (str "welcome") = .ok rs ∧
      rs.Sublist [bobInfo false, plainContact] ∧
      rs.length ≤ 2 ∧ plainContact ∈ rs := by
  obtain ⟨rs, h1, h2, h3, h4⟩ :=
    resolveRecipients_sublist (arr [bobUnsubscribed, plainContact]) (str "welcome")
      [bobInfo false, plainContact] rfl
  exact ⟨rs, h1, h2, h3, h4 plainContact (by simp [normalize]) undefined (str "a@x.com")
    rfl rfl rfl rfl⟩

end Email
